import Mathlib

/-!
Verification of the document field extraction and statement ledger engine
(`Application_extractor.py`, `Statements_extractor.py`).

Shallow embedding conventions:
* Python `float` amounts, balances and confidences are modelled by `ℚ`
  (all arithmetic the claims touch is exact decimal arithmetic);
  `round(x, n)` is modelled by `roundTo n` (round to `n` decimal places).
* Python `datetime.date` is modelled by `PyDate` (year, month, day) with
  lexicographic comparison (Python compares dates lexicographically on the
  `(year, month, day)` tuple), `nextDay` for `+ timedelta(days=1)`, and
  `toRata` (a day count, proved compatible with both) for `(a - b).days`.
* Python `dict` (insertion ordered) is modelled by an association list in
  insertion order.
* Calls into external libraries (`rapidfuzz.fuzz.partial_ratio`,
  `dateutil.parser.parse`) and the ambient clock (`datetime.now()`) are
  modelled as explicit function/value parameters of the embedded functions.
* Regular-expression matchers that the claims depend on are implemented
  concretely over character lists, following the Python patterns.
-/

/-! ## Generic helpers -/

/-- Python truthiness of an optional string: `None` and `""` are falsy. -/
def strTruthy (s : String) : Bool := !(s == "")

/-- Python truthiness of an `Optional[α]` value, given truthiness on `α`. -/
def pyTruthyOpt {α : Type} (truthy : α → Bool) : Option α → Bool
  | none => false
  | some v => truthy v

/-- Python `a or b` on optional values (keep `a` when truthy, else `b`). -/
def pyOr {α : Type} (truthy : α → Bool) (a b : Option α) : Option α :=
  if pyTruthyOpt truthy a then a else b

/-- `lo.isPrefixOf`-style boolean check on character lists. -/
def listPfx : List Char → List Char → Bool
  | [], _ => true
  | _ :: _, [] => false
  | a :: as, b :: bs => a == b && listPfx as bs

/-- Boolean substring test on character lists (Python `needle in hay`). -/
def listSub (needle hay : List Char) : Bool :=
  match hay with
  | [] => listPfx needle []
  | _ :: t => listPfx needle hay || listSub needle t

/-- Python `needle in hay` on strings. -/
def strSub (needle hay : String) : Bool := listSub needle.data hay.data

/-- Python `str.lower()` (ASCII, which covers every string the code builds). -/
def strLower (s : String) : String := String.mk (s.data.map Char.toLower)

/-- Python `str.upper()` (ASCII). -/
def strUpper (s : String) : String := String.mk (s.data.map Char.toUpper)

/-- Stable insertion into a sorted list: the new element goes in front of the
first element it compares `le` to (so, before elements equal to it, which
matches Python's stable `list.sort` given that the new element comes earlier). -/
def insertLe {α : Type} (le : α → α → Bool) (a : α) : List α → List α
  | [] => [a]
  | b :: l => if le a b then a :: b :: l else b :: insertLe le a l

/-- Stable insertion sort, modelling Python's `sorted` / `list.sort`. -/
def sortBy {α : Type} (le : α → α → Bool) : List α → List α
  | [] => []
  | a :: l => insertLe le a (sortBy le l)

/-! ## Calendar model (`datetime.date`) -/

/-- A Python `datetime.date` value: year, month, day. -/
structure PyDate where
  y : ℕ
  m : ℕ
  d : ℕ
deriving DecidableEq, Repr

/-- Gregorian leap year, as `calendar.isleap` / `datetime` use it. -/
def isLeap (y : ℕ) : Bool := (y % 4 == 0 && y % 100 != 0) || y % 400 == 0

/-- Number of days in a month. -/
def daysInMonth (y m : ℕ) : ℕ :=
  match m with
  | 2 => if isLeap y then 29 else 28
  | 4 => 30
  | 6 => 30
  | 9 => 30
  | 11 => 30
  | _ => 31

/-- Days before the first of month `m` inside year `y` (common-year table). -/
def monthOffset (m : ℕ) : ℕ :=
  match m with
  | 1 => 0 | 2 => 31 | 3 => 59 | 4 => 90 | 5 => 120 | 6 => 151
  | 7 => 181 | 8 => 212 | 9 => 243 | 10 => 273 | 11 => 304 | _ => 334

/-- Days in year `y` strictly before the first day of month `m`. -/
def daysBefore (y m : ℕ) : ℕ :=
  monthOffset m + (if 3 ≤ m ∧ isLeap y then 1 else 0)

/-- Rata-die style day number of a date (day 1 = 0001-01-01), the quantity
`datetime.date.toordinal` computes; `(a - b).days = toRata a - toRata b`. -/
def toRata (a : PyDate) : ℤ :=
  365 * ((a.y : ℤ) - 1) + ((a.y - 1) / 4 : ℕ) - ((a.y - 1) / 100 : ℕ)
    + ((a.y - 1) / 400 : ℕ) + (daysBefore a.y a.m : ℕ) + (a.d : ℤ)

/-- Python `date.__le__`: lexicographic on `(year, month, day)`. -/
def dateLe (a b : PyDate) : Bool :=
  (a.y < b.y) || (a.y == b.y && ((a.m < b.m) || (a.m == b.m && a.d ≤ b.d)))

/-- Python `date.__lt__`: lexicographic on `(year, month, day)`. -/
def dateLt (a b : PyDate) : Bool :=
  (a.y < b.y) || (a.y == b.y && ((a.m < b.m) || (a.m == b.m && a.d < b.d)))

/-- `d + timedelta(days=1)`. -/
def nextDay (a : PyDate) : PyDate :=
  if a.d < daysInMonth a.y a.m then ⟨a.y, a.m, a.d + 1⟩
  else if a.m < 12 then ⟨a.y, a.m + 1, 1⟩
  else ⟨a.y + 1, 1, 1⟩

/-- A structurally valid calendar date (`datetime.date` invariant, without the
year-9999 cap, so that `nextDay` is closed on valid dates). -/
def ValidDate (a : PyDate) : Prop :=
  1 ≤ a.y ∧ 1 ≤ a.m ∧ a.m ≤ 12 ∧ 1 ≤ a.d ∧ a.d ≤ daysInMonth a.y a.m

instance (a : PyDate) : Decidable (ValidDate a) := by
  unfold ValidDate; infer_instance

/-- The year-length part of `toRata`. -/
def yearRata (y : ℕ) : ℤ :=
  365 * ((y : ℤ) - 1) + ((y - 1) / 4 : ℕ) - ((y - 1) / 100 : ℕ) + ((y - 1) / 400 : ℕ)

/-! ## Statement ledger (`Statements_extractor.py`) -/

/-- Round a rational to the nearest integer, halves up: `⌊q + 1/2⌋`, computed
with integer floor division so that the kernel can evaluate it. -/
def roundQ (q : ℚ) : ℤ := (2 * q.num + q.den) / (2 * (q.den : ℤ))

/-- Python `round(q, n)`: round to `n` decimal places. (Python uses round half
to even on binary floats; the claims below never depend on an exact half tie,
so round half up is used.) -/
def roundTo (n : ℕ) (q : ℚ) : ℚ := ((roundQ (q * 10 ^ n) : ℤ) : ℚ) / 10 ^ n

/-- The `Txn` dataclass: date, description, signed amount, optional running
balance. -/
structure Txn where
  dt : PyDate
  desc : String
  amount : ℚ
  runbal : Option ℚ := none
deriving DecidableEq, Repr

/-- The `by_day` grouping in `rebuild_daily_balances` (a `defaultdict(list)`
keyed by date, holding that day's transactions in input order). -/
def dayTxns (txns : List Txn) (d : PyDate) : List Txn :=
  txns.filter (fun t => t.dt == d)

/-- The inner `for t in by_day[d]: bal += t.amount` loop. -/
def applyTxns (bal : ℚ) (ts : List Txn) : ℚ :=
  ts.foldl (fun b t => b + t.amount) bal

/-- Total signed amount of a list of transactions. -/
def txnSum (ts : List Txn) : ℚ := (ts.map Txn.amount).sum

/-- Python `min(t.dt for t in txns)` (first minimal date wins ties). -/
def minTxnDate : List Txn → PyDate
  | [] => ⟨1, 1, 1⟩
  | t :: ts => ts.foldl (fun acc u => if dateLt u.dt acc then u.dt else acc) t.dt

/-- Python `max(t.dt for t in txns)` (first maximal date wins ties). -/
def maxTxnDate : List Txn → PyDate
  | [] => ⟨1, 1, 1⟩
  | t :: ts => ts.foldl (fun acc u => if dateLt acc u.dt then u.dt else acc) t.dt

/-- The `while d <= d2` loop of `rebuild_daily_balances`, with enough fuel to
cover every day of the period (the loop advances one day per iteration). -/
def walkDays (byD : PyDate → List Txn) (d2 : PyDate) :
    ℕ → PyDate → ℚ → List (PyDate × ℚ)
  | 0, _, _ => []
  | fuel + 1, d, bal =>
    if dateLe d d2 then
      (d, applyTxns bal (byD d)) ::
        walkDays byD d2 fuel (nextDay d) (applyTxns bal (byD d))
    else []

/-- `rebuild_daily_balances(txns, opening_balance, period)`: returns the empty
mapping when `txns` is empty; otherwise walks every day of the period (taken
from `period` when present, else from the min/max transaction dates), folding
each day's transactions onto the running balance. The result models the
insertion-ordered Python dict as an association list. -/
def rebuild_daily_balances (txns : List Txn) (opening : Option ℚ)
    (period : Option (String × PyDate × PyDate)) : List (PyDate × ℚ) :=
  if txns.isEmpty then []
  else
    let dd := match period with
      | some (_, a, b) => (a, b)
      | none => (minTxnDate txns, maxTxnDate txns)
    walkDays (dayTxns txns) dd.2 ((toRata dd.2 - toRata dd.1 + 1).toNat) dd.1
      (opening.getD 0)

/-- `count_negative_days`: number of recorded days with balance `< 0`. -/
def count_negative_days (daily : List (PyDate × ℚ)) : ℕ :=
  (daily.filter (fun p => decide (p.2 < 0))).length

/-- Day-enumeration skeleton matching `walkDays` (same loop, dates only). -/
def dateRangeAux (d2 : PyDate) : ℕ → PyDate → List PyDate
  | 0, _ => []
  | fuel + 1, d => if dateLe d d2 then d :: dateRangeAux d2 fuel (nextDay d) else []

/-- The list of calendar days from `d1` to `d2` inclusive. -/
def dateRange (d1 d2 : PyDate) : List PyDate :=
  dateRangeAux d2 ((toRata d2 - toRata d1 + 1).toNat) d1

/-- `f"{n:04d}"` for the year (years fit in 4 digits for all `datetime` dates). -/
def pad4 (n : ℕ) : List Char :=
  if n < 10000 then
    [Nat.digitChar (n / 1000 % 10), Nat.digitChar (n / 100 % 10),
     Nat.digitChar (n / 10 % 10), Nat.digitChar (n % 10)]
  else (Nat.repr n).data

/-- `f"{n:02d}"` for the month. -/
def pad2 (n : ℕ) : List Char :=
  if n < 100 then [Nat.digitChar (n / 10 % 10), Nat.digitChar (n % 10)]
  else (Nat.repr n).data

/-- `month_key(d)`: the string `f"{d.year:04d}-{d.month:02d}"`. -/
def month_key (d : PyDate) : String := String.mk (pad4 d.y ++ ['-'] ++ pad2 d.m)

/-- `defaultdict(int)` increment: `m[k] += 1` (inserts the key at the end on
first access, as Python dicts do). -/
def bumpCount (m : List (String × ℕ)) (k : String) : List (String × ℕ) :=
  match m with
  | [] => [(k, 1)]
  | (k0, v) :: t => if k0 == k then (k0, v + 1) :: t else (k0, v) :: bumpCount t k

/-- `defaultdict(float)` accumulation: `m[k] += a`. -/
def addAmt (m : List (String × ℚ)) (k : String) (a : ℚ) : List (String × ℚ) :=
  match m with
  | [] => [(k, a)]
  | (k0, v) :: t => if k0 == k then (k0, v + a) :: t else (k0, v) :: addAmt t k a

/-- `EXCLUDE_DEPOSIT_KEYWORDS = ("zelle", "zelle®")`. -/
def EXCLUDE_DEPOSIT_KEYWORDS : List String := ["zelle", "zelle®"]

/-- `any(x in t.desc.lower() for x in EXCLUDE_DEPOSIT_KEYWORDS)`. -/
def isExcludedDeposit (desc : String) : Bool :=
  EXCLUDE_DEPOSIT_KEYWORDS.any (fun kw => strSub kw (strLower desc))

/-- One iteration of the `for t in txns` loop in
`compute_monthly_counts_and_deposits`: debits for `amount < 0`, credits (and
non-excluded deposits) for `amount > 0`, nothing for `amount == 0`. -/
def monthlyStep (acc : List (String × ℕ) × List (String × ℕ) × List (String × ℚ))
    (t : Txn) : List (String × ℕ) × List (String × ℕ) × List (String × ℚ) :=
  let k := month_key t.dt
  if t.amount < 0 then (bumpCount acc.1 k, acc.2.1, acc.2.2)
  else if 0 < t.amount then
    (acc.1, bumpCount acc.2.1 k,
      if !isExcludedDeposit t.desc then addAmt acc.2.2 k t.amount else acc.2.2)
  else acc

/-- `compute_monthly_counts_and_deposits(txns)`: returns
`(debit_counts, credit_counts, monthly_deposits)` keyed by `month_key`. -/
def compute_monthly_counts_and_deposits (txns : List Txn) :
    List (String × ℕ) × List (String × ℕ) × List (String × ℚ) :=
  txns.foldl monthlyStep ([], [], [])

/-- Python `counts.get(k, 0)`. -/
def getCount (m : List (String × ℕ)) (k : String) : ℕ :=
  match m.lookup k with
  | some v => v
  | none => 0

/-- `pick_avg_revenue(monthly_deposits, state)`: `None` on an empty mapping;
the best-3 average when the state is truthy and upper-cases to NY or CA; the
plain average of all months otherwise. -/
def pick_avg_revenue (deps : List (String × ℚ)) (state : Option String) :
    Option ℚ :=
  if deps.isEmpty then none
  else
    let vals := deps.map Prod.snd
    if (match state with
        | none => false
        | some s => strTruthy s && ((strUpper s == "NY") || (strUpper s == "CA"))) then
      let sorted := sortBy (fun a b : ℚ => decide (b ≤ a)) vals
      let top := if 3 ≤ sorted.length then sorted.take 3 else sorted
      if top.isEmpty then none
      else some (roundTo 2 (top.sum / (top.length : ℚ)))
    else some (roundTo 2 (vals.sum / (vals.length : ℚ)))

/-- Modelled from the spec wording for C4: the average of the 3 largest
monthly totals (all of them when fewer than 3 are supplied). -/
def specAvgBest3 (deps : List (String × ℚ)) : ℚ :=
  let t := (sortBy (fun a b : ℚ => decide (b ≤ a)) (deps.map Prod.snd)).take 3
  t.sum / (t.length : ℚ)

/-- Modelled from the spec wording for C4: the average of all supplied
monthly totals. -/
def specAvgAll (deps : List (String × ℚ)) : ℚ :=
  (deps.map Prod.snd).sum / ((deps.map Prod.snd).length : ℚ)

/-! ## Recurring-position detection (`detect_positions`, `_normalize_desc`) -/

/-- Python `\s` whitespace (the characters the statement texts contain). -/
def isPySpace (c : Char) : Bool := c == ' ' || c == '\t' || c == '\n' || c == '\r'

/-- Python `\w` word character: ASCII alphanumeric or underscore. -/
def isWordChar (c : Char) : Bool := c.isAlphanum || c == '_'

/-- The regex substitution collapsing whitespace runs of length ≥ 2 to one
space; single whitespace characters stay as they are. -/
def collapseSpaces : List Char → List Char
  | [] => []
  | c :: rest =>
    if isPySpace c && (match rest.head? with
        | some d => isPySpace d
        | none => false) then
      ' ' :: collapseSpaces (rest.dropWhile isPySpace)
    else c :: collapseSpaces rest
termination_by l => l.length
decreasing_by
  · exact Nat.lt_succ_of_le ((List.dropWhile_sublist isPySpace).length_le)
  · simp

/-- The regex substitution deleting maximal digit runs of length ≥ 4 whose
neighbours (in the original string) are not word characters; `prev` is the
character just before the current position. -/
def stripLongDigits (prev : Option Char) : List Char → List Char
  | [] => []
  | c :: rest =>
    if c.isDigit then
      let run := c :: rest.takeWhile Char.isDigit
      let boundaryBefore := match prev with
        | none => true
        | some p => !isWordChar p
      let boundaryAfter := match rest.dropWhile Char.isDigit with
        | [] => true
        | a :: _ => !isWordChar a
      if 4 ≤ run.length && boundaryBefore && boundaryAfter then
        stripLongDigits (some (run.getLastD c)) (rest.dropWhile Char.isDigit)
      else run ++ stripLongDigits (some (run.getLastD c)) (rest.dropWhile Char.isDigit)
    else c :: stripLongDigits (some c) rest
termination_by l => l.length
decreasing_by
  · exact Nat.lt_succ_of_le ((List.dropWhile_sublist Char.isDigit).length_le)
  · exact Nat.lt_succ_of_le ((List.dropWhile_sublist Char.isDigit).length_le)
  · simp

/-- The separator class (hyphen, slash, hash, star) of `_normalize_desc`. -/
def isSepChar (c : Char) : Bool := c == '-' || c == '/' || c == '#' || c == '*'

/-- The regex substitution turning each separator run into one space. -/
def collapseSeps : List Char → List Char
  | [] => []
  | c :: rest =>
    if isSepChar c then ' ' :: collapseSeps (rest.dropWhile isSepChar)
    else c :: collapseSeps rest
termination_by l => l.length
decreasing_by
  · exact Nat.lt_succ_of_le ((List.dropWhile_sublist isSepChar).length_le)
  · simp

/-- Python `s.split()`: maximal non-whitespace words. -/
def pySplit : List Char → List (List Char)
  | [] => []
  | c :: rest =>
    if isPySpace c then pySplit rest
    else (c :: rest.takeWhile (fun d => !isPySpace d))
      :: pySplit (rest.dropWhile (fun d => !isPySpace d))
termination_by l => l.length
decreasing_by
  · simp
  · exact Nat.lt_succ_of_le ((List.dropWhile_sublist _).length_le)

/-- `_normalize_desc`: lowercase, collapse double spaces, strip long digit
runs, separators to spaces, then join the split words with single spaces. -/
def normalize_desc (s : String) : String :=
  String.mk (List.intercalate [' ']
    (pySplit (collapseSeps (stripLongDigits none (collapseSpaces (s.data.map Char.toLower))))))

/-- `groups[n].append(t.dt)` on a `defaultdict(list)` in insertion order. -/
def addGroup (gs : List (String × List PyDate)) (k : String) (d : PyDate) :
    List (String × List PyDate) :=
  match gs with
  | [] => [(k, [d])]
  | (k0, ds) :: t =>
      if k0 == k then (k0, ds ++ [d]) :: t else (k0, ds) :: addGroup t k d

/-- The descriptions `detect_positions` skips outright. -/
def DETECT_SKIP : List String := ["deposit", "pos", "ach", "online transfer"]

/-- The grouping loop of `detect_positions`: normalized description →
transaction dates (skipping short and generic descriptions). -/
def buildGroups (txns : List Txn) : List (String × List PyDate) :=
  txns.foldl (fun gs t =>
    let n := normalize_desc t.desc
    if n.length < 4 || DETECT_SKIP.contains n then gs
    else addGroup gs n t.dt) []

/-- The day gaps between consecutive entries of a date list. -/
def dateGaps : List PyDate → List ℤ
  | [] => []
  | [_] => []
  | a :: b :: rest => (toRata b - toRata a) :: dateGaps (b :: rest)

/-- `statistics.median` on integers (rational for even-length input);
0 on the empty list, which the call site rules out. -/
def median (xs : List ℤ) : ℚ :=
  let s := sortBy (fun a b : ℤ => decide (a ≤ b)) xs
  let n := s.length
  if n % 2 = 1 then ((s.getD (n / 2) 0 : ℤ) : ℚ)
  else (((s.getD (n / 2 - 1) 0 + s.getD (n / 2) 0 : ℤ) : ℚ)) / 2

/-- The classification loop body of `detect_positions`: discard groups with
fewer than 3 dates; sort, take consecutive gaps, classify by median gap. -/
def classifyStep (dw : List String × List String) (g : String × List PyDate) :
    List String × List String :=
  if g.2.length < 3 then dw
  else
    let gaps := dateGaps (sortBy dateLe g.2)
    if gaps.isEmpty then dw
    else
      let med := median gaps
      if 0.8 ≤ med ∧ med ≤ 1.3 then (dw.1 ++ [g.1], dw.2)
      else if 5.5 ≤ med ∧ med ≤ 8.5 then (dw.1, dw.2 ++ [g.1])
      else dw

/-- `topk`: unique names, sorted, first 5. -/
def topk (lst : List String) : List String :=
  (sortBy (fun a b : String => decide (a ≤ b)) lst.dedup).take 5

/-- `detect_positions(txns)`: (daily names, weekly names). -/
def detect_positions (txns : List Txn) : List String × List String :=
  let dw := (buildGroups txns).foldl classifyStep ([], [])
  (topk dw.1, topk dw.2)

/-- Spec predicate: a group with at least 3 occurrences whose median
consecutive-gap lies in `[lo, hi]` days. -/
def groupInBand (lo hi : ℚ) (g : String × List PyDate) : Bool :=
  (3 ≤ g.2.length) && (decide (lo ≤ median (dateGaps (sortBy dateLe g.2)))
    && decide (median (dateGaps (sortBy dateLe g.2)) ≤ hi))

/-- Spec predicate for the "daily" band `[0.8, 1.3]`. -/
def isDailyGroup : (String × List PyDate) → Bool := groupInBand 0.8 1.3

/-- Spec predicate for the "weekly" band `[5.5, 8.5]`. -/
def isWeeklyGroup : (String × List PyDate) → Bool := groupInBand 5.5 8.5

/-! ## Anchor index and confidence resolver (`Application_extractor.py`) -/

/-- The engine's per-field output: optional typed value, confidence, and an
evidence dict (modelled as an association list). -/
structure FieldResult (α : Type) where
  value : Option α
  confidence : ℚ
  evidence : List (String × String)

/-- `window(lines, idx, radius)`: join `lines[max(0,idx-radius) : min(len,idx+radius+1)]`
with `" | "`. -/
def window (lines : List String) (idx radius : ℕ) : String :=
  String.intercalate " | " ((lines.take (min lines.length (idx + radius + 1))).drop (idx - radius))

/-- `best_anchor_hits_local(lines_lower, anchors)`: every (line index, anchor,
similarity) with similarity ≥ 80, sorted by descending similarity then
ascending line index (stable, like Python's `sort`). The fuzzy similarity
(`rapidfuzz.fuzz.partial_ratio`) is an external library call, passed in as
the function `sim`. -/
def best_anchor_hits_local (sim : String → String → ℕ) (lines_lower : List String)
    (anchors : List String) : List (ℕ × String × ℕ) :=
  let hits := (lines_lower.enum).flatMap (fun p =>
    anchors.filterMap (fun a =>
      if 80 ≤ sim a p.2 then some (p.1, a, sim a p.2) else none))
  sortBy (fun x y => (y.2.2 < x.2.2) || (x.2.2 == y.2.2 && x.1 ≤ y.1)) hits

/-- One iteration of the anchor loop in `find_with_anchors`: run the extractor
on the ±2-line window; keep the result when it is truthy and its confidence
`min(conf_base + score/100*0.35, 0.98)` beats the best seen so far. -/
def fwaStep {α : Type} (truthy : α → Bool) (lines : List String)
    (extractor : String → Option α) (conf_base : ℚ)
    (best : FieldResult α) (h : ℕ × String × ℕ) : FieldResult α :=
  if pyTruthyOpt truthy (extractor (window lines h.1 2)) then
    if best.confidence < min (conf_base + (h.2.2 : ℚ) / 100 * 0.35) 0.98 then
      ⟨extractor (window lines h.1 2),
        roundTo 2 (min (conf_base + (h.2.2 : ℚ) / 100 * 0.35) 0.98),
        [("anchor", h.2.1), ("line", window lines h.1 2)]⟩
    else best
  else best

/-- `find_with_anchors(lines, lines_lower, field_key, anchors, extractor_fn,
conf_base)`: fold the top-8 anchor hits; if no truthy value was found, fall
back to the document head/tail at confidence 0.45, else
`FieldResult(None, 0.0, {})`. -/
def find_with_anchors {α : Type} (sim : String → String → ℕ) (truthy : α → Bool)
    (lines lines_lower : List String) (field_key : String)
    (anchors : String → List String) (extractor : String → Option α)
    (conf_base : ℚ) : FieldResult α :=
  let headS := String.intercalate " | " (lines.take 60)
  let tailS := String.intercalate " | " (lines.drop (lines.length - 60))
  let hits := best_anchor_hits_local sim lines_lower (anchors field_key)
  let best := (hits.take 8).foldl (fwaStep truthy lines extractor conf_base)
    (⟨none, 0, []⟩ : FieldResult α)
  if !(pyTruthyOpt truthy best.value) then
    if pyTruthyOpt truthy (pyOr truthy (extractor headS) (extractor tailS)) then
      ⟨pyOr truthy (extractor headS) (extractor tailS), 0.45,
        [("anchor", "global-fallback"), ("line", "(document head/tail)")]⟩
    else ⟨none, 0, []⟩
  else best

/-- `r.evidence.get("line", "")`. -/
def evLine {α : Type} (r : FieldResult α) : String := (r.evidence.lookup "line").getD ""

/-- The post-resolution confidence nudge for the State field (lines 697–700 of
`Application_extractor.py`): when the evidence line carries a ZIP-derived tag,
raise the confidence to `min(0.99, max(conf, 0.76) + 0.08)`. -/
def state_conf_nudge (st : FieldResult String) : FieldResult String :=
  if pyTruthyOpt strTruthy st.value then
    if ["city,st,zip", "zip-only", "block "].any (fun tag => strSub tag (evLine st)) then
      { st with confidence := min 0.99 (max st.confidence 0.76 + 0.08) }
    else st
  else st

/-- The final BusinessName confidence assignment (lines 667–671): when a value
is present, `confidence = min(0.99, max(conf, 0.70) + conf_boost)`, where
`conf_boost ≥ 0` accumulates the layout/text/corp-suffix boosts. -/
def bn_conf_final (boost : ℚ) (bn : FieldResult String) : FieldResult String :=
  if pyTruthyOpt strTruthy bn.value then
    { bn with confidence := min 0.99 (max bn.confidence 0.70 + boost) }
  else bn

/-! ## Strict time-in-business parser (`parse_tib_value_strict`) -/

/-- Case-insensitive character comparison (`re.IGNORECASE`). -/
def ciEq (a b : Char) : Bool := a.toLower == b.toLower

/-- Case-insensitive literal prefix match. -/
def ciPfx : List Char → List Char → Bool
  | [], _ => true
  | _ :: _, [] => false
  | a :: as, b :: bs => ciEq a b && ciPfx as bs

/-- Decimal digits to a natural number. -/
def digitsToNat (ds : List Char) : ℕ :=
  ds.foldl (fun acc c => acc * 10 + (c.toNat - 48)) 0

/-- `TIB_KEYWORDS`, in source order. -/
def TIB_KEYWORDS : List String :=
  ["time in business", "years in business", "length of ownership", "owner since",
   "date business started", "business start date", "established", "since",
   "in business since", "ownership since"]

/-- Case-insensitive alternation over literal tokens, in regex backtracking
order; when `needBoundary` is set, the token must be followed by a word
boundary (the trailing `\b` of the pattern). Returns the text after the
token. -/
def tokAlt (cands : List String) (needBoundary : Bool) (cs : List Char) :
    Option (List Char) :=
  match cands with
  | [] => none
  | c :: rest =>
      if ciPfx c.data cs then
        let after := cs.drop c.length
        if needBoundary then
          match after with
          | [] => some after
          | a :: _ => if isWordChar a then tokAlt rest needBoundary cs else some after
        else some after
      else tokAlt rest needBoundary cs

/-- The year tokens of `yrs?|years?`, in backtracking order. -/
def YEAR_TOKS : List String := ["yrs", "yr", "years", "year"]

/-- The month tokens of `mos?|months?`, in backtracking order. -/
def MONTH_TOKS : List String := ["mos", "mo", "months", "month"]

/-- A word boundary before the match start (the leading `\b`; match starts
with a word character, so the previous character must not be one). -/
def boundaryBefore (prev : Option Char) : Bool :=
  match prev with
  | none => true
  | some p => !isWordChar p

/-- Attempt of RE_YEARS_MONTHS
(digits{1,2}, spaces, year token, spaces, digits{1,2}, spaces, month token,
boundary) at one position. A digit group can only match when the whole
maximal digit run fits its repetition bound, since any leftover digit blocks
the next literal. -/
def matchYearsMonthsAt (prev : Option Char) (cs : List Char) : Option (ℕ × ℕ) :=
  if boundaryBefore prev then
    let d1 := cs.takeWhile Char.isDigit
    if 1 ≤ d1.length && d1.length ≤ 2 then
      match tokAlt YEAR_TOKS false ((cs.drop d1.length).dropWhile isPySpace) with
      | some r2 =>
          let r2s := r2.dropWhile isPySpace
          let d2 := r2s.takeWhile Char.isDigit
          if 1 ≤ d2.length && d2.length ≤ 2 then
            match tokAlt MONTH_TOKS true ((r2s.drop d2.length).dropWhile isPySpace) with
            | some _ => some (digitsToNat d1, digitsToNat d2)
            | none => none
          else none
      | none => none
    else none
  else none

/-- Leftmost search for RE_YEARS_MONTHS. -/
def scanYearsMonths (prev : Option Char) : List Char → Option (ℕ × ℕ)
  | [] => none
  | c :: rest =>
      match matchYearsMonthsAt prev (c :: rest) with
      | some r => some r
      | none => scanYearsMonths (some c) rest

/-- `RE_YEARS_MONTHS.search(s)`: the `(years, months)` capture groups. -/
def reYearsMonths (s : String) : Option (ℕ × ℕ) := scanYearsMonths none s.data

/-- Parse `\d{1,maxInt}(?:\.\d{1,2})?` at the head of `cs` (whole maximal
digit runs, as above). Returns the rational value and the rest. -/
def numWithFrac (maxInt : ℕ) (cs : List Char) : Option (ℚ × List Char) :=
  let d1 := cs.takeWhile Char.isDigit
  if 1 ≤ d1.length && d1.length ≤ maxInt then
    let r := cs.drop d1.length
    match r with
    | '.' :: r2 =>
        let f := r2.takeWhile Char.isDigit
        if 1 ≤ f.length && f.length ≤ 2 then
          some (((digitsToNat d1 : ℚ) + (digitsToNat f : ℚ) / 10 ^ f.length),
            r2.drop f.length)
        else none
    | _ => some ((digitsToNat d1 : ℚ), r)
  else none

/-- Attempt of RE_MONTHS_ONLY at one position. -/
def matchMonthsOnlyAt (prev : Option Char) (cs : List Char) : Option ℚ :=
  if boundaryBefore prev then
    match numWithFrac 3 cs with
    | some (v, r) =>
        match tokAlt MONTH_TOKS true (r.dropWhile isPySpace) with
        | some _ => some v
        | none => none
    | none => none
  else none

/-- Leftmost search for RE_MONTHS_ONLY. -/
def scanMonthsOnly (prev : Option Char) : List Char → Option ℚ
  | [] => none
  | c :: rest =>
      match matchMonthsOnlyAt prev (c :: rest) with
      | some r => some r
      | none => scanMonthsOnly (some c) rest

/-- `RE_MONTHS_ONLY.search(s)`: the months value. -/
def reMonthsOnly (s : String) : Option ℚ := scanMonthsOnly none s.data

/-- Attempt of RE_YEARS_NUM at one position. -/
def matchYearsNumAt (prev : Option Char) (cs : List Char) : Option ℚ :=
  if boundaryBefore prev then
    match numWithFrac 2 cs with
    | some (v, r) =>
        match tokAlt YEAR_TOKS true (r.dropWhile isPySpace) with
        | some _ => some v
        | none => none
    | none => none
  else none

/-- Leftmost search for RE_YEARS_NUM. -/
def scanYearsNum (prev : Option Char) : List Char → Option ℚ
  | [] => none
  | c :: rest =>
      match matchYearsNumAt prev (c :: rest) with
      | some r => some r
      | none => scanYearsNum (some c) rest

/-- `RE_YEARS_NUM.search(s)`: the (possibly fractional) years value. -/
def reYearsNum (s : String) : Option ℚ := scanYearsNum none s.data

/-- Alternative 1 of RE_DATE: `\d{1,2}[/\-]\d{1,2}[/\-]\d{2,4}` followed by a
word boundary; returns the matched text. -/
def dateAlt1 (cs : List Char) : Option (List Char) :=
  let d1 := cs.takeWhile Char.isDigit
  if 1 ≤ d1.length && d1.length ≤ 2 then
    match cs.drop d1.length with
    | s1 :: r1 =>
        if s1 == '/' || s1 == '-' then
          let d2 := r1.takeWhile Char.isDigit
          if 1 ≤ d2.length && d2.length ≤ 2 then
            match r1.drop d2.length with
            | s2 :: r2 =>
                if s2 == '/' || s2 == '-' then
                  let d3 := r2.takeWhile Char.isDigit
                  if (2 ≤ d3.length && d3.length ≤ 4)
                      && (match r2.drop d3.length with
                          | [] => true
                          | a :: _ => !isWordChar a) then
                    some (d1 ++ [s1] ++ d2 ++ [s2] ++ d3)
                  else none
                else none
            | [] => none
          else none
        else none
    | [] => none
  else none

/-- Alternative 2 of RE_DATE: `[A-Za-z]{3,9}\s+\d{1,2},\s*\d{2,4}` followed
by a word boundary; returns the matched text. -/
def dateAlt2 (cs : List Char) : Option (List Char) :=
  let w := cs.takeWhile Char.isAlpha
  if 3 ≤ w.length && w.length ≤ 9 then
    let r0 := cs.drop w.length
    let sp := r0.takeWhile isPySpace
    if 1 ≤ sp.length then
      let r1 := r0.drop sp.length
      let d1 := r1.takeWhile Char.isDigit
      if 1 ≤ d1.length && d1.length ≤ 2 then
        match r1.drop d1.length with
        | ',' :: r2 =>
            let sp2 := r2.takeWhile isPySpace
            let r3 := r2.drop sp2.length
            let d2 := r3.takeWhile Char.isDigit
            if (2 ≤ d2.length && d2.length ≤ 4)
                && (match r3.drop d2.length with
                    | [] => true
                    | a :: _ => !isWordChar a) then
              some (w ++ sp ++ d1 ++ [','] ++ sp2 ++ d2)
            else none
        | _ => none
      else none
    else none
  else none

/-- One attempt of RE_DATE at a position (first alternative wins). -/
def matchDateAt (prev : Option Char) (cs : List Char) : Option (List Char) :=
  if boundaryBefore prev then
    match dateAlt1 cs with
    | some m => some m
    | none => dateAlt2 cs
  else none

/-- `RE_DATE.finditer(s)`: all non-overlapping matches, left to right (a
match is never empty, so the `max 1` skip equals the match length). -/
def scanDates (prev : Option Char) : List Char → List String
  | [] => []
  | c :: rest =>
      match matchDateAt prev (c :: rest) with
      | some m =>
          String.mk m :: scanDates (some (m.getLastD c)) ((c :: rest).drop (max 1 m.length))
      | none => scanDates (some c) rest
termination_by l => l.length
decreasing_by
  · simp only [List.length_cons, List.length_drop]
    omega
  · simp

/-- `RE_DATE.finditer` over a string. -/
def reDateMatches (s : String) : List String := scanDates none s.data

/-- A model of the Python `datetime` values the TIB parser handles: the
ordinal day (`(a - b).days = a.day - b.day`) and the calendar year. -/
structure PyDateTime where
  day : ℤ
  year : ℤ
deriving DecidableEq, Repr

/-- The result of `afterEst`: `\s*(?:in\s*)?(\d{4})` (the year group has no
trailing boundary; it is the first four digits of a run of ≥ 4). -/
def afterEst (rest : List Char) : Option ℕ :=
  let r2 := rest.dropWhile isPySpace
  let grab := fun (r : List Char) =>
    let ds := r.takeWhile Char.isDigit
    if 4 ≤ ds.length then some (digitsToNat (ds.take 4)) else none
  if ciPfx "in".data r2 then
    match grab ((r2.drop 2).dropWhile isPySpace) with
    | some y => some y
    | none => grab r2
  else grab r2

/-- Greedy-then-backtracking consumption of `\w*` after the literal `estab`:
try keeping `k` word characters, longest first. -/
def estKeepLoop (tail0 : List Char) : ℕ → Option ℕ
  | 0 => afterEst tail0
  | k + 1 =>
      match afterEst (tail0.drop (k + 1)) with
      | some y => some y
      | none => estKeepLoop tail0 k

/-- One attempt of `(estab\w*|since|started)\s*(?:in\s*)?(\d{4})` (no word
boundaries in this pattern) at a position, alternatives in order. -/
def estYearMatchAt (cs : List Char) : Option ℕ :=
  if ciPfx "estab".data cs then
    let tail0 := cs.drop 5
    estKeepLoop tail0 (tail0.takeWhile isWordChar).length
  else if ciPfx "since".data cs then afterEst (cs.drop 5)
  else if ciPfx "started".data cs then afterEst (cs.drop 7)
  else none

/-- Leftmost search for the founded-year pattern. -/
def estYearScanL : List Char → Option ℕ
  | [] => none
  | c :: rest =>
      match estYearMatchAt (c :: rest) with
      | some y => some y
      | none => estYearScanL rest

/-- `re.search(r"(estab\w*|since|started)\s*(?:in\s*)?(\d{4})", s, re.I)`:
the captured 4-digit year. -/
def estYear (s : String) : Option ℕ := estYearScanL s.data

/-- `parse_date_candidate(neigh)`: run the (external) date parser `dp` over
every RE_DATE match, keep parses after 1900 and not in the future, return the
earliest. -/
def parse_date_candidate (dp : String → Option PyDateTime) (now : PyDateTime)
    (neigh : String) : Option PyDateTime :=
  let c := (reDateMatches neigh).filterMap (fun raw =>
    match dp raw with
    | some dt => if 1900 < dt.year ∧ dt.day ≤ now.day then some dt else none
    | none => none)
  (sortBy (fun a b : PyDateTime => decide (a.day ≤ b.day)) c).head?

/-- `parse_tib_value_strict(neigh)`: `None` unless a duration-context keyword
occurs in the lowercased window; then, in order: explicit "N yrs M mos",
"N months", "N years", a recognized calendar date (elapsed days from `now`),
or a founding year (elapsed years from `now.year`). Returns
`(months, years)`. `dp` stands for `dateutil.parser.parse`, `now` for
`datetime.now()`. -/
def parse_tib_value_strict (dp : String → Option PyDateTime) (now : PyDateTime)
    (neigh : String) : Option (ℚ × ℚ) :=
  if !(TIB_KEYWORDS.any (fun k => strSub k (strLower neigh))) then none
  else
    match reYearsMonths neigh with
    | some ym =>
        some (((ym.1 * 12 + ym.2 : ℕ) : ℚ), roundTo 2 (((ym.1 * 12 + ym.2 : ℕ) : ℚ) / 12))
    | none =>
    match reMonthsOnly neigh with
    | some m => some (m, roundTo 2 (m / 12))
    | none =>
    match reYearsNum neigh with
    | some y => some (roundTo 1 (y * 12), roundTo 2 y)
    | none =>
    match parse_date_candidate dp now neigh with
    | some dt =>
        some (roundTo 1 (((now.day - dt.day : ℤ) : ℚ) / 30.4375),
          roundTo 2 (((now.day - dt.day : ℤ) : ℚ) / 365.25))
    | none =>
    match estYear neigh with
    | some yr =>
        if 1900 < yr ∧ (yr : ℤ) ≤ now.year then
          some (roundTo 1 (((now.year - (yr : ℤ)) : ℚ) * 12),
            roundTo 2 (((now.year - (yr : ℤ)) : ℚ)))
        else none
    | none => none

/-! ### State extraction (Application_extractor.py) -/

/-- US_STATES, an insertion-ordered map from abbreviation to full name. -/
def US_STATES : List (String × String) :=
  [("AL", "Alabama"), ("AK", "Alaska"), ("AZ", "Arizona"), ("AR", "Arkansas"),
   ("CA", "California"), ("CO", "Colorado"), ("CT", "Connecticut"),
   ("DE", "Delaware"), ("FL", "Florida"), ("GA", "Georgia"), ("HI", "Hawaii"),
   ("ID", "Idaho"), ("IL", "Illinois"), ("IN", "Indiana"), ("IA", "Iowa"),
   ("KS", "Kansas"), ("KY", "Kentucky"), ("LA", "Louisiana"), ("ME", "Maine"),
   ("MD", "Maryland"), ("MA", "Massachusetts"), ("MI", "Michigan"),
   ("MN", "Minnesota"), ("MS", "Mississippi"), ("MO", "Missouri"),
   ("MT", "Montana"), ("NE", "Nebraska"), ("NV", "Nevada"),
   ("NH", "New Hampshire"), ("NJ", "New Jersey"), ("NM", "New Mexico"),
   ("NY", "New York"), ("NC", "North Carolina"), ("ND", "North Dakota"),
   ("OH", "Ohio"), ("OK", "Oklahoma"), ("OR", "Oregon"), ("PA", "Pennsylvania"),
   ("RI", "Rhode Island"), ("SC", "South Carolina"), ("SD", "South Dakota"),
   ("TN", "Tennessee"), ("TX", "Texas"), ("UT", "Utah"), ("VT", "Vermont"),
   ("VA", "Virginia"), ("WA", "Washington"), ("WV", "West Virginia"),
   ("WI", "Wisconsin"), ("WY", "Wyoming"), ("DC", "District of Columbia"),
   ("PR", "Puerto Rico")]

/-- Python dict-key membership `s in US_STATES`. -/
def isUSState (s : String) : Bool := US_STATES.any (fun p => p.1 == s)

/-- STATE_NAMES, the comprehension over US_STATES items mapping the
upper-cased full name to the abbreviation, in dict iteration order. -/
def STATE_NAMES : List (String × String) :=
  US_STATES.map (fun p => (strUpper p.2, p.1))

/-- The character class of the city body in RE_CITY_STATE_ZIP: a letter,
a dot, a hyphen or a space. -/
def isCszBodyChar (c : Char) : Bool :=
  c.isAlpha || c == '.' || c == '-' || c == ' '

/-- A word boundary between the match and the remaining characters (the
trailing boundary of a pattern): the remainder is empty or starts with a
non-word character. -/
def boundaryAfterList (l : List Char) : Bool :=
  match l with
  | [] => true
  | c :: _ => !isWordChar c

/-- Attempt of RE_CITY_STATE_ZIP (boundary, letter, city-body characters,
comma, spaces, two capitals, spaces, five digits with an optional dash-four
extension, boundary) at one position, returning the two-capital group. The
greedy city body must cover the whole maximal run of its class, since a
shorter body would put a body character where the comma is required; the
two-letter and five-digit groups admit no shrinking, and a dash after the
fifth digit satisfies the final boundary even when the dash-four extension
fails, so the trailing check reduces to a boundary after the fifth digit. -/
def cityStZipAt (prev : Option Char) (cs : List Char) : Option String :=
  match cs with
  | [] => none
  | c :: rest =>
      if c.isAlpha && boundaryBefore prev then
        let body := rest.takeWhile isCszBodyChar
        if body.isEmpty then none
        else
          match rest.drop body.length with
          | ',' :: r1 =>
              match r1.dropWhile isPySpace with
              | a :: b :: r3 =>
                  if a.isUpper && b.isUpper then
                    let sp := r3.takeWhile isPySpace
                    if sp.isEmpty then none
                    else
                      let r4 := r3.drop sp.length
                      if (r4.takeWhile Char.isDigit).length == 5
                          && boundaryAfterList (r4.drop 5) then
                        some (String.mk [a, b])
                      else none
                  else none
              | _ => none
          | _ => none
      else none

/-- Leftmost search of RE_CITY_STATE_ZIP over the character list. -/
def cityStZipScan (prev : Option Char) : List Char → Option String
  | [] => none
  | c :: rest =>
      match cityStZipAt prev (c :: rest) with
      | some g2 => some g2
      | none => cityStZipScan (some c) rest

/-- RE_CITY_STATE_ZIP.search, returning group 2 of the first match. -/
def findCityStZip (s : String) : Option String := cityStZipScan none s.data

/-- Attempt of RE_ZIP5 (boundary, five digits, optional dash-four extension,
boundary) at one position, returning the matched text. A digit run longer
than five kills the match at this position since the leftover digit breaks
the trailing boundary, and a dash after the fifth digit satisfies that
boundary even when the dash-four extension fails. -/
def zipMatchAt (prev : Option Char) (cs : List Char) : Option (List Char) :=
  if boundaryBefore prev then
    let ds := cs.takeWhile Char.isDigit
    if ds.length == 5 then
      match cs.drop 5 with
      | '-' :: r3 =>
          if 4 ≤ (r3.takeWhile Char.isDigit).length ∧
              boundaryAfterList (r3.drop 4) = true then
            some (ds ++ '-' :: r3.take 4)
          else some ds
      | r2 => if boundaryAfterList r2 then some ds else none
    else none
  else none

/-- Leftmost search of RE_ZIP5 over the character list. -/
def zipScan (prev : Option Char) : List Char → Option (List Char)
  | [] => none
  | c :: rest =>
      match zipMatchAt prev (c :: rest) with
      | some m => some m
      | none => zipScan (some c) rest

/-- RE_ZIP5.search, returning the matched text of the first match. -/
def findZip5 (s : String) : Option String :=
  (zipScan none s.data).map String.mk

/-- ZIP3_TO_STATE as the ordered list of range inserts performed by the dict
literal and the update calls; a later insert of the same key overwrites an
earlier one, so lookup takes the last range containing the key. Each triple
is (lo, hi, state) for the half-open key range lo ≤ k < hi. -/
def ZIP3_RANGES : List (ℕ × ℕ × String) :=
  [(350, 370, "AL"), (995, 1000, "AK"), (850, 866, "AZ"), (716, 730, "AR"),
   (900, 962, "CA"), (800, 816, "CO"), (600, 700, "CT"), (200, 207, "DC"),
   (197, 200, "DE"), (320, 350, "FL"), (300, 321, "GA"), (967, 969, "HI"),
   (500, 528, "IA"), (832, 839, "ID"), (600, 630, "IL"), (460, 480, "IN"),
   (660, 680, "KS"), (400, 428, "KY"), (700, 716, "LA"), (100, 280, "MA"),
   (206, 220, "MD"), (390, 400, "ME"), (480, 500, "MI"), (550, 568, "MN"),
   (630, 660, "MO"), (386, 400, "MS"), (590, 600, "MT"), (270, 290, "NC"),
   (580, 590, "ND"), (680, 700, "NE"), (300, 400, "NH"), (700, 900, "NJ"),
   (870, 885, "NM"), (889, 900, "NV"), (100, 150, "NY"), (430, 460, "OH"),
   (730, 750, "OK"), (970, 980, "OR"), (150, 200, "PA"),
   (6, 10, "PR"), (280, 291, "RI"), (290, 300, "SC"), (570, 578, "SD"),
   (370, 386, "TN"), (750, 800, "TX"), (840, 850, "UT"), (220, 247, "VA"),
   (50, 60, "VT"), (980, 994, "WA"), (530, 550, "WI"), (247, 269, "WV"),
   (820, 832, "WY")]

/-- ZIP3_TO_STATE.get: the state of the last inserted range containing k. -/
def zip3Get (k : ℕ) : Option String :=
  ((ZIP3_RANGES.filter (fun r => decide (r.1 ≤ k ∧ k < r.2.1))).getLast?).map
    (fun r => r.2.2)

/-- zip_to_state: search RE_ZIP5 in the text, take the first three digits of
the match as a number, and look it up in ZIP3_TO_STATE. -/
def zip_to_state (zipcode : String) : Option String :=
  match findZip5 zipcode with
  | none => none
  | some z => zip3Get (digitsToNat (z.data.take 3))

/-- The character class of the street body in RE_STREET: a letter, a digit,
a dot, a hyphen, a hash or a space. -/
def isStreetBodyChar (c : Char) : Bool :=
  c.isAlphanum || c == '.' || c == '-' || c == '#' || c == ' '

/-- After the whitespace run following the street number, the street body
must start: a body character stops the scan with success, a non-space
whitespace character is consumed by the whitespace group, and anything else
fails. A plain space is itself a body character, so it always succeeds. -/
def streetTail2 : List Char → Bool
  | [] => false
  | c :: cs =>
      if isStreetBodyChar c then true
      else if isPySpace c then streetTail2 cs
      else false

/-- After the street number: at least one whitespace character, then a
reachable street-body character. -/
def streetTail : List Char → Bool
  | [] => false
  | c :: cs => isPySpace c && streetTail2 cs

/-- RE_STREET.search (anchored: optional whitespace, one to six digits,
whitespace, street body) viewed as a Boolean. The digit group must take the
whole leading digit run, since a leftover digit blocks the whitespace group,
so the run length must be between one and six. -/
def streetMatch (s : String) : Bool :=
  let cs := s.data.dropWhile isPySpace
  let ds := cs.takeWhile Char.isDigit
  !ds.isEmpty && decide (ds.length ≤ 6) && streetTail (cs.drop ds.length)

/-- The stop tokens of the inner loop of collect_address_blocks. -/
def BLOCK_STOP_TOKENS : List String :=
  ["industry", "ein", "ssn", "dob", "owner", "date", "application",
   "business legal name", "business name", "company name"]

/-- Python str.strip on ASCII whitespace. -/
def pyStrip (s : String) : String :=
  String.mk (((s.data.dropWhile isPySpace).reverse.dropWhile isPySpace).reverse)

/-- The inner loop of collect_address_blocks: stitch up to k further lines
after the anchor line, stopping at an empty stripped line or a stop token. -/
def takeBlock : List String → ℕ → List String
  | _, 0 => []
  | [], _ => []
  | nxt :: rest, k + 1 =>
      let s := pyStrip nxt
      if s == "" then []
      else if BLOCK_STOP_TOKENS.any (fun tok => strSub tok (strLower s)) then []
      else s :: takeBlock rest k

/-- An anchor line of collect_address_blocks: it contains "address" or
starts with a street number. -/
def isBlockAnchor (ln : String) : Bool :=
  strSub "address" (strLower ln) || streetMatch ln

/-- The outer loop of collect_address_blocks; the fuel bounds the trips and
line position advances by at least one per trip. -/
def collectBlocksAux : ℕ → List String → List String
  | 0, _ => []
  | _ + 1, [] => []
  | fuel + 1, ln :: rest =>
      if isBlockAnchor ln then
        let more := takeBlock rest 3
        String.intercalate " | " (ln :: more)
          :: collectBlocksAux fuel (rest.drop more.length)
      else collectBlocksAux fuel rest

/-- collect_address_blocks with the default max_block_lines = 4 (the anchor
line plus at most three stitched lines). -/
def collect_address_blocks (lines : List String) : List String :=
  collectBlocksAux lines.length lines

/-- The city-st-zip layer: the first RE_CITY_STATE_ZIP match, kept only when
its two-letter group is a US_STATES key (an invalid first match is dropped
without retrying later positions, as in the code). -/
def validCsz (s : String) : Option String :=
  match findCityStZip s with
  | none => none
  | some st => if isUSState st then some st else none

/-- The state-name layer: the first STATE_NAMES entry whose space-padded
full name occurs in the space-padded upper-cased text. -/
def stateNameHit (s : String) : Option String :=
  STATE_NAMES.findSome? (fun p =>
    if strSub (" " ++ p.1 ++ " ") (" " ++ strUpper s ++ " ") then some p.2
    else none)

/-- The zip-only layer: an RE_ZIP5 match whose ZIP3 prefix maps to a state
(zip_to_state is applied to the matched text, as in the code). -/
def zipAbbr (s : String) : Option String :=
  match findZip5 s with
  | none => none
  | some z => zip_to_state z

/-- Layer 4 of extract_state_stronger_multiline: the per-block cascade of
the three window layers over the stitched address blocks. -/
def blockScan : List String → Option (String × String)
  | [] => none
  | block :: rest =>
      match validCsz block, stateNameHit block, zipAbbr block with
      | some st, _, _ => some (st, "[block city,st,zip] " ++ block)
      | none, some abbr, _ => some (abbr, "[block state-name] " ++ block)
      | none, none, some abbr =>
          some (abbr, "[block zip-only→" ++ (abbr ++ ("] " ++ block)))
      | none, none, none => blockScan rest

/-- re.findall of two capitals flanked by word boundaries: the
non-overlapping left-to-right matches, each scan resuming after the match. -/
def findAllCaps2 (prev : Option Char) : List Char → List String
  | [] => []
  | [_] => []
  | a :: b :: r2 =>
      if a.isUpper && b.isUpper && boundaryBefore prev
          && boundaryAfterList r2 then
        String.mk [a, b] :: findAllCaps2 (some b) r2
      else findAllCaps2 (some a) (b :: r2)

/-- extract_state_stronger_multiline: the five layers in source order, the
first success winning; the bare-token layer runs only when the window
contains "address". -/
def extract_state_stronger_multiline (all_lines : List String)
    (window : String) : Option (String × String) :=
  match validCsz window, stateNameHit window, zipAbbr window,
      blockScan (collect_address_blocks all_lines) with
  | some st, _, _, _ => some (st, "[city,st,zip] " ++ window)
  | none, some abbr, _, _ => some (abbr, "[state-name] " ++ window)
  | none, none, some abbr, _ =>
      some (abbr, "[zip-only→" ++ (abbr ++ ("] " ++ window)))
  | none, none, none, some r => some r
  | none, none, none, none =>
      if strSub "address" (strLower window) then
        match (findAllCaps2 none window.data).find? (fun t => isUSState t) with
        | some tok => some (tok, "[address token] " ++ window)
        | none => none
      else none

/-! ### Statement-month extraction (Statements_extractor.py)

The regex searches and `dateutil` parses feeding `month_from_period` are
abstracted into an input record: each field holds the outcome the
corresponding code path observes (a regex-plus-parse either fails or yields
`datetime.date` values). Dates supplied by the parser satisfy the
`datetime.date` invariant, which the theorems take as hypotheses; the
integer captures of the filename patterns are validated by the code itself
through the `date(...)` constructor, modelled by `okDate`. A
`date(y + m // 12, m % 12 + 1, 1)` call overflowing year 9999 raises: inside
`_month_from_filename` and branch (C) the exception is caught (returning
`None` or falling through), while in branch (D) it escapes
`month_from_period`, modelled as `Except.error`. -/

/-- f-string label `f"{y:04d}-{mo:02d}"`. -/
def ymLabel (y m : ℕ) : String := String.mk (pad4 y ++ ['-'] ++ pad2 m)

/-- `date(y + m // 12, (m % 12) + 1, 1) - timedelta(days=1)`: the last day of
month `m` of year `y` (for `1 ≤ m ≤ 12`). -/
def lastDayOfMonth (y m : ℕ) : PyDate := ⟨y, m, daysInMonth y m⟩

/-- Success of the `date(y, mo, dd)` constructor. -/
def okDate (y mo dd : ℕ) : Bool :=
  decide (1 ≤ y ∧ y ≤ 9999 ∧ 1 ≤ mo ∧ mo ≤ 12 ∧ 1 ≤ dd ∧
    dd ≤ daysInMonth y mo)

/-- Success of the month-end computation
`date(y + mo // 12, (mo % 12) + 1, 1)`: its year must not exceed 9999. -/
def okMonthEnd (y mo : ℕ) : Bool := decide (y + mo / 12 ≤ 9999)

/-- Python `max` over a list of dates (`none` on the empty list; the first
maximal element wins, which for dates is unique up to value). -/
def maxDateList : List PyDate → Option PyDate
  | [] => none
  | d :: ds => some (ds.foldl (fun acc u => if dateLt acc u then u else acc) d)

/-- The outcomes of the regex searches and parses that
`month_from_period(text, filename)` performs, in source order: branch (A)
"statement period/cycle" with two parsed numeric dates; branch (B)
`_parse_period_variants`; branch (C) "for/ending/period Month YYYY" with one
parsed date; branch (D) the parsed `DATE_Y_PAT` tokens in text order; and
the filename captures, month-day-year and year-month-day. -/
structure MfpInput where
  mA : Option (PyDate × PyDate)
  mB : Option (PyDate × PyDate)
  mC : Option PyDate
  mD : List PyDate
  mF1 : Option (ℕ × ℕ × ℕ)
  mF2 : Option (ℕ × ℕ × ℕ)

/-- `_month_from_filename`: a month-day-year capture is tried first and, when
present, is not followed by the year-month-day pattern even if invalid; each
arm validates its ints through the `date` constructor and month-end
computation inside a `try` that returns `None` on failure. -/
def _month_from_filename (mF1 mF2 : Option (ℕ × ℕ × ℕ)) :
    Option (String × PyDate × PyDate) :=
  match mF1 with
  | some (mo, dd, y) =>
      if okDate y mo dd && okMonthEnd y mo then
        some (ymLabel y mo, ⟨y, mo, 1⟩, lastDayOfMonth y mo)
      else none
  | none =>
      match mF2 with
      | some (y, mo, dd) =>
          if okDate y mo dd && okMonthEnd y mo then
            some (ymLabel y mo, ⟨y, mo, 1⟩, lastDayOfMonth y mo)
          else none
      | none => none

/-- `month_from_period`: the five branches in source order. Branch (C) falls
through when its month-end computation would overflow (the exception is
swallowed by `except: pass`); branch (D) raises in that situation, since its
month-end computation sits outside any `try`. -/
def month_from_period (inp : MfpInput) :
    Except Unit (Option (String × PyDate × PyDate)) :=
  match inp.mA, inp.mB,
      inp.mC.bind (fun d => if okMonthEnd d.y d.m then some d else none),
      maxDateList inp.mD with
  | some (d1, d2), _, _, _ =>
      Except.ok (some (ymLabel d2.y d2.m, d1, d2))
  | none, some (d1, d2), _, _ =>
      Except.ok (some (ymLabel d2.y d2.m, d1, d2))
  | none, none, some d, _ =>
      Except.ok (some (ymLabel d.y d.m, ⟨d.y, d.m, 1⟩, lastDayOfMonth d.y d.m))
  | none, none, none, some dmax =>
      if okMonthEnd dmax.y dmax.m then
        Except.ok (some (ymLabel dmax.y dmax.m, ⟨dmax.y, dmax.m, 1⟩,
          lastDayOfMonth dmax.y dmax.m))
      else Except.error ()
  | none, none, none, none =>
      Except.ok (_month_from_filename inp.mF1 inp.mF2)

/-- The `statement_month` field of the summary built by
`summarize_statement`: the label of `month_from_period` when it returns one,
else the sentinel. -/
def statement_month (inp : MfpInput) : Except Unit String :=
  match month_from_period inp with
  | Except.error e => Except.error e
  | Except.ok none => Except.ok "[unknown]"
  | Except.ok (some t) => Except.ok t.1

/-- Specification-side shape check, following the spec wording: a four-digit
year, a hyphen, and a two-digit month. -/
def wellFormedYM (s : String) : Bool :=
  match s.data with
  | [y1, y2, y3, y4, h, m1, m2] =>
      y1.isDigit && y2.isDigit && y3.isDigit && y4.isDigit && h == '-' &&
        m1.isDigit && m2.isDigit
  | _ => false

/-! ## Theorems -/

theorem mem_insertLe {α : Type} (le : α → α → Bool) (a x : α) :
    ∀ l : List α, x ∈ insertLe le a l ↔ x = a ∨ x ∈ l := by
  intro l
  induction l with
  | nil => simp [insertLe]
  | cons b t ih =>
      unfold insertLe
      by_cases h : le a b = true
      · rw [if_pos h]; simp
      · rw [if_neg h]
        simp only [List.mem_cons, ih]
        tauto

theorem sortBy_perm {α : Type} (le : α → α → Bool) :
    ∀ l : List α, List.Perm (sortBy le l) l := by
  intro l
  induction l with
  | nil => simp [sortBy]
  | cons a t ih =>
      have h1 : List.Perm (insertLe le a (sortBy le t)) (a :: sortBy le t) := by
        clear ih
        induction sortBy le t with
        | nil => simp [insertLe]
        | cons b u ihu =>
            by_cases h : le a b = true
            · simp [insertLe, h]
            · simp only [insertLe, h, if_neg]
              exact List.Perm.trans (List.Perm.cons b ihu) (List.Perm.swap a b u)
      exact List.Perm.trans h1 (List.Perm.cons a ih)

theorem mem_sortBy {α : Type} (le : α → α → Bool) (x : α) (l : List α) :
    x ∈ sortBy le l ↔ x ∈ l :=
  (sortBy_perm le l).mem_iff

theorem sortBy_length {α : Type} (le : α → α → Bool) (l : List α) :
    (sortBy le l).length = l.length :=
  (sortBy_perm le l).length_eq

theorem sortBy_nodup {α : Type} (le : α → α → Bool) (l : List α) (h : l.Nodup) :
    (sortBy le l).Nodup :=
  ((sortBy_perm le l).nodup_iff).mpr h

theorem insertLe_sorted {α : Type} (le : α → α → Bool)
    (htot : ∀ a b : α, le a b = true ∨ le b a = true)
    (htrans : ∀ a b c : α, le a b = true → le b c = true → le a c = true) (a : α) :
    ∀ l : List α, l.Pairwise (fun x y => le x y = true) →
      (insertLe le a l).Pairwise (fun x y => le x y = true) := by
  intro l
  induction l with
  | nil => intro _; simp [insertLe]
  | cons b t ih =>
      intro hp
      rcases List.pairwise_cons.mp hp with ⟨hb, ht⟩
      unfold insertLe
      by_cases h : le a b = true
      · rw [if_pos h]
        refine List.pairwise_cons.mpr ⟨?_, hp⟩
        intro y hy
        rcases List.mem_cons.mp hy with rfl | hy
        · exact h
        · exact htrans a b y h (hb y hy)
      · rw [if_neg h]
        have hba : le b a = true := (htot a b).resolve_left h
        refine List.pairwise_cons.mpr ⟨?_, ih ht⟩
        intro y hy
        rcases (mem_insertLe le a y t).mp hy with rfl | hy
        · exact hba
        · exact hb y hy

theorem sortBy_sorted {α : Type} (le : α → α → Bool)
    (htot : ∀ a b : α, le a b = true ∨ le b a = true)
    (htrans : ∀ a b c : α, le a b = true → le b c = true → le a c = true)
    (l : List α) :
    (sortBy le l).Pairwise (fun x y => le x y = true) := by
  induction l with
  | nil => simp [sortBy]
  | cons a t ih => exact insertLe_sorted le htot htrans a (sortBy le t) ih

theorem daysInMonth_pos (y m : ℕ) : 1 ≤ daysInMonth y m := by
  unfold daysInMonth
  split
  · split <;> norm_num
  all_goals norm_num

theorem daysBefore_succ (y : ℕ) {m : ℕ} (h1 : 1 ≤ m) (h2 : m ≤ 11) :
    daysBefore y (m + 1) = daysBefore y m + daysInMonth y m := by
  interval_cases m <;>
    simp [daysBefore, daysInMonth, monthOffset] <;>
    cases h : isLeap y <;> simp [h]

theorem daysBefore_le_of_le (y : ℕ) {m m' : ℕ} (h1 : 1 ≤ m) (h2 : m ≤ m')
    (h3 : m' ≤ 12) : daysBefore y m ≤ daysBefore y m' := by
  induction m' with
  | zero => omega
  | succ k ih =>
      rcases Nat.lt_or_ge m (k + 1) with hlt | hge
      · have hk : daysBefore y m ≤ daysBefore y k := ih (by omega) (by omega)
        have : daysBefore y (k + 1) = daysBefore y k + daysInMonth y k :=
          daysBefore_succ y (by omega) (by omega)
        omega
      · have : m = k + 1 := by omega
        subst this; omega

theorem yearRata_succ (y : ℕ) (hy : 1 ≤ y) :
    yearRata (y + 1) = yearRata y + 365 + (if isLeap y then 1 else 0) := by
  unfold yearRata
  by_cases hL : isLeap y = true
  · rw [if_pos hL]
    simp only [isLeap, Bool.or_eq_true, Bool.and_eq_true, beq_iff_eq, bne_iff_ne] at hL
    push_cast
    omega
  · rw [if_neg hL]
    simp only [isLeap, Bool.or_eq_true, Bool.and_eq_true, beq_iff_eq, bne_iff_ne,
      not_or, not_and_or, not_not] at hL
    push_cast
    omega

theorem toRata_eq (a : PyDate) :
    toRata a = yearRata a.y + (daysBefore a.y a.m : ℤ) + (a.d : ℤ) := by
  unfold toRata yearRata
  push_cast
  ring

theorem daysBefore_twelve (y : ℕ) :
    daysBefore y 12 = 334 + (if isLeap y then 1 else 0) := by
  unfold daysBefore monthOffset
  norm_num

theorem daysBefore_one (y : ℕ) : daysBefore y 1 = 0 := by
  unfold daysBefore monthOffset
  norm_num

theorem daysInMonth_twelve (y : ℕ) : daysInMonth y 12 = 31 := rfl

theorem toRata_nextDay {a : PyDate} (h : ValidDate a) :
    toRata (nextDay a) = toRata a + 1 := by
  obtain ⟨hy, hm1, hm2, hd1, hd2⟩ := h
  have toRata_mk : ∀ y m d : ℕ, toRata ⟨y, m, d⟩ = yearRata y + (daysBefore y m : ℤ) + d :=
    fun y m d => toRata_eq ⟨y, m, d⟩
  unfold nextDay
  by_cases c1 : a.d < daysInMonth a.y a.m
  · rw [if_pos c1]
    rw [toRata_mk, toRata_eq]
    push_cast
    ring
  · rw [if_neg c1]
    have hdd : a.d = daysInMonth a.y a.m := by omega
    by_cases c2 : a.m < 12
    · rw [if_pos c2]
      rw [toRata_mk, toRata_eq]
      have := daysBefore_succ a.y hm1 (by omega)
      omega
    · rw [if_neg c2]
      have hm12 : a.m = 12 := by omega
      rw [toRata_mk, toRata_eq]
      have hsucc := yearRata_succ a.y hy
      have h334 := daysBefore_twelve a.y
      have h0 := daysBefore_one (a.y + 1)
      have h31 : a.d = 31 := by rw [hdd, hm12]; rfl
      rw [hm12]
      by_cases hL : isLeap a.y = true <;> simp [hL] at hsucc h334 <;> omega

theorem nextDay_valid {a : PyDate} (h : ValidDate a) : ValidDate (nextDay a) := by
  obtain ⟨hy, hm1, hm2, hd1, hd2⟩ := h
  unfold nextDay
  by_cases c1 : a.d < daysInMonth a.y a.m
  · rw [if_pos c1]
    exact ⟨hy, hm1, hm2, by show 1 ≤ a.d + 1; omega,
      by show a.d + 1 ≤ daysInMonth a.y a.m; omega⟩
  · rw [if_neg c1]
    by_cases c2 : a.m < 12
    · rw [if_pos c2]
      exact ⟨hy, by show 1 ≤ a.m + 1; omega, by show a.m + 1 ≤ 12; omega,
        le_refl 1, daysInMonth_pos _ _⟩
    · rw [if_neg c2]
      exact ⟨by show 1 ≤ a.y + 1; omega, by norm_num, by norm_num,
        le_refl 1, daysInMonth_pos _ _⟩

theorem dateLt_iff (a b : PyDate) :
    dateLt a b = true ↔
      a.y < b.y ∨ (a.y = b.y ∧ (a.m < b.m ∨ (a.m = b.m ∧ a.d < b.d))) := by
  unfold dateLt
  simp [Bool.or_eq_true, Bool.and_eq_true, decide_eq_true_eq]

theorem dateLe_iff (a b : PyDate) :
    dateLe a b = true ↔
      a.y < b.y ∨ (a.y = b.y ∧ (a.m < b.m ∨ (a.m = b.m ∧ a.d ≤ b.d))) := by
  unfold dateLe
  simp [Bool.or_eq_true, Bool.and_eq_true, decide_eq_true_eq]

theorem yearRata_mono {y y' : ℕ} (hy : 1 ≤ y) (h : y ≤ y') :
    yearRata y ≤ yearRata y' := by
  induction y' with
  | zero => omega
  | succ k ih =>
      rcases Nat.lt_or_ge y (k + 1) with hlt | hge
      · have hk : yearRata y ≤ yearRata k := ih (by omega)
        have := yearRata_succ k (by omega)
        by_cases hL : isLeap k = true <;> simp [hL] at this <;> omega
      · have : y = k + 1 := by omega
        rw [this]

theorem toRata_lt_of_dateLt {a b : PyDate} (ha : ValidDate a) (hb : ValidDate b)
    (h : dateLt a b = true) : toRata a < toRata b := by
  obtain ⟨hay, ham1, ham2, had1, had2⟩ := ha
  obtain ⟨hby, hbm1, hbm2, hbd1, hbd2⟩ := hb
  rcases (dateLt_iff a b).mp h with hyy | ⟨hyy, hmm⟩
  · -- different years: a ≤ end of year a.y < start of year a.y + 1 ≤ start of year b.y ≤ b
    have hend : (daysBefore a.y a.m : ℤ) + a.d ≤ 365 + (if isLeap a.y then 1 else 0) := by
      have h334 := daysBefore_twelve a.y
      rcases Nat.lt_or_ge a.m 12 with hm12 | hm12
      · have hstep := daysBefore_succ a.y ham1 (by omega)
        have hmono := daysBefore_le_of_le a.y (show 1 ≤ a.m + 1 by omega)
          (show a.m + 1 ≤ 12 by omega) (by omega)
        by_cases hL : isLeap a.y = true <;> simp [hL] at h334 ⊢ <;> omega
      · have : a.m = 12 := by omega
        rw [this] at had2 ⊢
        rw [daysInMonth_twelve] at had2
        by_cases hL : isLeap a.y = true <;> simp [hL] at h334 ⊢ <;> omega
    have hstart : (0 : ℤ) + 1 ≤ (daysBefore b.y b.m : ℤ) + b.d := by
      have : (0 : ℤ) ≤ (daysBefore b.y b.m : ℤ) := Int.natCast_nonneg _
      omega
    have hy1 := yearRata_succ a.y hay
    have hym : yearRata (a.y + 1) ≤ yearRata b.y := yearRata_mono (by omega) (by omega)
    rw [toRata_eq, toRata_eq]
    by_cases hL : isLeap a.y = true <;> simp [hL] at hend hy1 <;> omega
  · rcases hmm with hmlt | ⟨hmeq, hdlt⟩
    · have hstep := daysBefore_succ a.y ham1 (by omega)
      have hmono : daysBefore a.y (a.m + 1) ≤ daysBefore a.y b.m :=
        daysBefore_le_of_le a.y (by omega) (by omega) (by omega)
      rw [hyy] at hstep hmono had2
      rw [toRata_eq, toRata_eq, hyy]
      omega
    · rw [toRata_eq, toRata_eq, hyy, hmeq]
      omega

theorem dateLt_trichotomy (a b : PyDate) :
    dateLt a b = true ∨ a = b ∨ dateLt b a = true := by
  rw [dateLt_iff, dateLt_iff]
  obtain ⟨ay, am, ad⟩ := a
  obtain ⟨by', bm, bd⟩ := b
  simp only [PyDate.mk.injEq]
  omega

theorem dateLe_rata {a b : PyDate} (ha : ValidDate a) (hb : ValidDate b) :
    dateLe a b = true ↔ toRata a ≤ toRata b := by
  constructor
  · intro h
    rcases (dateLe_iff a b).mp h with hyy | ⟨hyy, hmlt | ⟨hmeq, hdle⟩⟩
    · exact le_of_lt (toRata_lt_of_dateLt ha hb ((dateLt_iff a b).mpr (Or.inl hyy)))
    · exact le_of_lt (toRata_lt_of_dateLt ha hb
        ((dateLt_iff a b).mpr (Or.inr ⟨hyy, Or.inl hmlt⟩)))
    · rcases Nat.lt_or_ge a.d b.d with hdlt | hdge
      · exact le_of_lt (toRata_lt_of_dateLt ha hb
          ((dateLt_iff a b).mpr (Or.inr ⟨hyy, Or.inr ⟨hmeq, hdlt⟩⟩)))
      · have : a = b := by
          obtain ⟨ay, am, ad⟩ := a
          obtain ⟨by', bm, bd⟩ := b
          simp only at hyy hmeq hdle hdge
          simp only [PyDate.mk.injEq]
          omega
        rw [this]
  · intro h
    by_contra hc
    have hlt : dateLt b a = true := by
      rw [dateLt_iff]
      rw [dateLe_iff] at hc
      obtain ⟨ay, am, ad⟩ := a
      obtain ⟨by', bm, bd⟩ := b
      simp only at hc ⊢
      omega
    have := toRata_lt_of_dateLt hb ha hlt
    omega

theorem toRata_inj {a b : PyDate} (ha : ValidDate a) (hb : ValidDate b)
    (h : toRata a = toRata b) : a = b := by
  rcases dateLt_trichotomy a b with hlt | heq | hgt
  · have := toRata_lt_of_dateLt ha hb hlt; omega
  · exact heq
  · have := toRata_lt_of_dateLt hb ha hgt; omega

theorem applyTxns_eq : ∀ (ts : List Txn) (bal : ℚ), applyTxns bal ts = bal + txnSum ts := by
  intro ts
  induction ts with
  | nil => intro bal; simp [applyTxns, txnSum]
  | cons t u ih =>
      intro bal
      show applyTxns (bal + t.amount) u = _
      rw [ih]
      simp [txnSum]
      ring

theorem walkDays_map_fst (byD : PyDate → List Txn) (d2 : PyDate) :
    ∀ (fuel : ℕ) (d : PyDate) (bal : ℚ),
      (walkDays byD d2 fuel d bal).map Prod.fst = dateRangeAux d2 fuel d := by
  intro fuel
  induction fuel with
  | zero => intro d bal; rfl
  | succ f ih =>
      intro d bal
      unfold walkDays dateRangeAux
      by_cases h : dateLe d d2 = true
      · rw [if_pos h, if_pos h]
        simp [ih]
      · rw [if_neg h, if_neg h]
        rfl

theorem dateRangeAux_mem {d2 : PyDate} (hd2 : ValidDate d2) :
    ∀ (fuel : ℕ) (d : PyDate), ValidDate d → fuel = (toRata d2 - toRata d + 1).toNat →
      ∀ x, ValidDate x →
        (x ∈ dateRangeAux d2 fuel d ↔ dateLe d x = true ∧ dateLe x d2 = true) := by
  intro fuel
  induction fuel with
  | zero =>
      intro d hd hf x hx
      have hlt : toRata d2 < toRata d := by omega
      simp only [dateRangeAux, List.not_mem_nil, false_iff]
      rw [dateLe_rata hd hx, dateLe_rata hx hd2]
      omega
  | succ f ih =>
      intro d hd hf x hx
      have hdle : toRata d ≤ toRata d2 := by omega
      have hle : dateLe d d2 = true := (dateLe_rata hd hd2).mpr hdle
      have hnv : ValidDate (nextDay d) := nextDay_valid hd
      have hnr : toRata (nextDay d) = toRata d + 1 := toRata_nextDay hd
      have ihx := ih (nextDay d) hnv (by omega) x hx
      simp only [dateRangeAux, if_pos hle, List.mem_cons]
      rw [ihx, dateLe_rata hd hx, dateLe_rata hx hd2, dateLe_rata hnv hx, hnr]
      constructor
      · rintro (rfl | ⟨h1, h2⟩)
        · exact ⟨le_refl _, hdle⟩
        · exact ⟨by omega, h2⟩
      · rintro ⟨h1, h2⟩
        by_cases hxe : x = d
        · exact Or.inl hxe
        · refine Or.inr ⟨?_, h2⟩
          have hne : toRata x ≠ toRata d := fun he => hxe (toRata_inj hx hd he)
          omega

theorem dateRangeAux_rata {d2 : PyDate} (hd2 : ValidDate d2) :
    ∀ (fuel : ℕ) (d : PyDate), ValidDate d → fuel = (toRata d2 - toRata d + 1).toNat →
      (dateRangeAux d2 fuel d).map toRata
        = (List.range fuel).map (fun i : ℕ => toRata d + (i : ℤ)) := by
  intro fuel
  induction fuel with
  | zero => intro d _ _; rfl
  | succ f ih =>
      intro d hd hf
      have hdle : toRata d ≤ toRata d2 := by omega
      have hle : dateLe d d2 = true := (dateLe_rata hd hd2).mpr hdle
      have hnv : ValidDate (nextDay d) := nextDay_valid hd
      have hnr : toRata (nextDay d) = toRata d + 1 := toRata_nextDay hd
      have htail : (List.range f).map (fun i : ℕ => toRata (nextDay d) + (i : ℤ))
          = (List.range f).map ((fun i : ℕ => toRata d + (i : ℤ)) ∘ Nat.succ) := by
        apply List.map_congr_left
        intro i _
        simp only [Function.comp, hnr]
        push_cast
        ring
      simp only [dateRangeAux, if_pos hle, List.map_cons]
      rw [ih (nextDay d) hnv (by omega), htail, List.range_succ_eq_map]
      simp only [List.map_cons, List.map_map]
      norm_num

theorem dateRange_nodup {d1 d2 : PyDate} (hd1 : ValidDate d1) (hd2 : ValidDate d2) :
    (dateRange d1 d2).Nodup := by
  have hmap := dateRangeAux_rata hd2 ((toRata d2 - toRata d1 + 1).toNat) d1 hd1 rfl
  have hinj : Function.Injective (fun i : ℕ => toRata d1 + (i : ℤ)) := by
    intro i j hij
    simp only at hij
    omega
  have hnd : ((List.range ((toRata d2 - toRata d1 + 1).toNat)).map
      (fun i : ℕ => toRata d1 + (i : ℤ))).Nodup := (List.nodup_range _).map hinj
  rw [← hmap] at hnd
  exact hnd.of_map toRata

theorem walkDays_step (byD : PyDate → List Txn) (d2 : PyDate) :
    ∀ (fuel : ℕ) (d : PyDate) (bal : ℚ) (i : ℕ) (b b' : PyDate × ℚ),
      (walkDays byD d2 fuel d bal)[i]? = some b →
      (walkDays byD d2 fuel d bal)[i + 1]? = some b' →
      b'.2 = b.2 + txnSum (byD b'.1) := by
  intro fuel
  induction fuel with
  | zero =>
      intro d bal i b b' h1 _
      simp [walkDays] at h1
  | succ f ih =>
      intro d bal i b b' h1 h2
      by_cases hle : dateLe d d2 = true
      · rw [show walkDays byD d2 (f + 1) d bal
            = (d, applyTxns bal (byD d)) ::
                walkDays byD d2 f (nextDay d) (applyTxns bal (byD d)) from by
          simp [walkDays, hle]] at h1 h2
        cases i with
        | zero =>
            rw [List.getElem?_cons_zero] at h1
            rw [List.getElem?_cons_succ] at h2
            cases f with
            | zero => simp [walkDays] at h2
            | succ g =>
                by_cases hle2 : dateLe (nextDay d) d2 = true
                · rw [show walkDays byD d2 (g + 1) (nextDay d) (applyTxns bal (byD d))
                      = ((nextDay d), applyTxns (applyTxns bal (byD d)) (byD (nextDay d))) ::
                          walkDays byD d2 g (nextDay (nextDay d))
                            (applyTxns (applyTxns bal (byD d)) (byD (nextDay d))) from by
                    simp [walkDays, hle2]] at h2
                  rw [List.getElem?_cons_zero] at h2
                  have hb : b = (d, applyTxns bal (byD d)) := by
                    injection h1 with hh; exact hh.symm
                  have hb' : b' = ((nextDay d),
                      applyTxns (applyTxns bal (byD d)) (byD (nextDay d))) := by
                    injection h2 with hh; exact hh.symm
                  rw [hb, hb']
                  simp [applyTxns_eq]
                · simp [walkDays, hle2] at h2
        | succ j =>
            rw [List.getElem?_cons_succ] at h1 h2
            exact ih (nextDay d) (applyTxns bal (byD d)) j b b' h1 h2
      · simp [walkDays, hle] at h1

theorem walkDays_head (byD : PyDate → List Txn) (d2 : PyDate) (f : ℕ) (d : PyDate)
    (bal : ℚ) (hle : dateLe d d2 = true) :
    (walkDays byD d2 (f + 1) d bal).head? = some (d, bal + txnSum (byD d)) := by
  simp [walkDays, hle, applyTxns_eq]

/-- C2 (amended): for every NON-EMPTY `Txn` list, every optional opening
balance (defaulting to 0), and every valid period `(d1, d2)` with `d1 ≤ d2`,
`rebuild_daily_balances` records exactly the calendar days of the closed
interval `[d1, d2]` (in order, no gaps, no duplicates — the key list equals
`dateRange d1 d2`, which is duplicate-free and contains precisely the valid
dates between `d1` and `d2`), the first day's balance is the opening balance
plus that day's transactions, and every day with no transactions carries the
previous day's balance forward. (The original claim quantifies over every
`Txn` sequence; it fails for the empty one, see `claim2_counterexample`.) -/
theorem claim2 (txns : List Txn) (opening : Option ℚ) (lbl : String) (d1 d2 : PyDate)
    (hne : txns ≠ []) (hd1 : ValidDate d1) (hd2 : ValidDate d2)
    (hle : dateLe d1 d2 = true) :
    ((rebuild_daily_balances txns opening (some (lbl, d1, d2))).map Prod.fst
        = dateRange d1 d2)
    ∧ (dateRange d1 d2).Nodup
    ∧ (∀ x, ValidDate x →
        (x ∈ dateRange d1 d2 ↔ dateLe d1 x = true ∧ dateLe x d2 = true))
    ∧ (rebuild_daily_balances txns opening (some (lbl, d1, d2))).head?
        = some (d1, opening.getD 0 + txnSum (dayTxns txns d1))
    ∧ (∀ (i : ℕ) (b b' : PyDate × ℚ),
        (rebuild_daily_balances txns opening (some (lbl, d1, d2)))[i]? = some b →
        (rebuild_daily_balances txns opening (some (lbl, d1, d2)))[i + 1]? = some b' →
        dayTxns txns b'.1 = [] → b'.2 = b.2) := by
  have hunf : rebuild_daily_balances txns opening (some (lbl, d1, d2))
      = walkDays (dayTxns txns) d2 ((toRata d2 - toRata d1 + 1).toNat) d1
          (opening.getD 0) := by
    unfold rebuild_daily_balances
    cases txns with
    | nil => exact absurd rfl hne
    | cons t ts => rfl
  refine ⟨?_, dateRange_nodup hd1 hd2, ?_, ?_, ?_⟩
  · rw [hunf, walkDays_map_fst]
    rfl
  · intro x hx
    exact dateRangeAux_mem hd2 _ d1 hd1 rfl x hx
  · rw [hunf]
    have hpos : 1 ≤ (toRata d2 - toRata d1 + 1).toNat := by
      have := (dateLe_rata hd1 hd2).mp hle
      omega
    obtain ⟨m, hm⟩ : ∃ m, (toRata d2 - toRata d1 + 1).toNat = m + 1 :=
      ⟨(toRata d2 - toRata d1 + 1).toNat - 1, by omega⟩
    rw [hm]
    exact walkDays_head _ _ _ _ _ hle
  · intro i b b' h1 h2 hbe
    rw [hunf] at h1 h2
    have hstep := walkDays_step (dayTxns txns) d2 _ d1 (opening.getD 0) i b b' h1 h2
    rw [hbe] at hstep
    simpa [txnSum] using hstep

/-- C2 witness: a concrete one-transaction statement over a three-day period;
the recorded keys are exactly the three days of the period. -/
theorem claim2_witness :
    ((rebuild_daily_balances [⟨⟨2024, 1, 2⟩, "coffee", -5, none⟩] (some 10)
        (some ("2024-01", ⟨2024, 1, 1⟩, ⟨2024, 1, 3⟩))).map Prod.fst
      = dateRange ⟨2024, 1, 1⟩ ⟨2024, 1, 3⟩) :=
  (claim2 [⟨⟨2024, 1, 2⟩, "coffee", -5, none⟩] (some 10) "2024-01"
    ⟨2024, 1, 1⟩ ⟨2024, 1, 3⟩ (by decide) (by decide) (by decide) (by decide)).1

/-- C2 counterexample: for the EMPTY transaction list and the five-day period
2024-01-01 .. 2024-01-05, `rebuild_daily_balances` returns the empty mapping,
so its key set is not the closed date interval, contradicting the claim as
stated ("for every Txn sequence"). -/
theorem claim2_counterexample :
    rebuild_daily_balances [] (some (-50))
        (some ("2024-01", ⟨2024, 1, 1⟩, ⟨2024, 1, 5⟩)) = []
    ∧ (rebuild_daily_balances [] (some (-50))
        (some ("2024-01", ⟨2024, 1, 1⟩, ⟨2024, 1, 5⟩))).map Prod.fst
      ≠ dateRange ⟨2024, 1, 1⟩ ⟨2024, 1, 5⟩ := by
  constructor
  · rfl
  · decide

/-- C3 counterexample: with opening balance −50, no transactions, and the
five-day period 2024-01-01 .. 2024-01-05, `count_negative_days` applied to
`rebuild_daily_balances` returns 0, not 5 as the claim states (the code
short-circuits to an empty mapping when the transaction list is empty). -/
theorem claim3_counterexample :
    count_negative_days (rebuild_daily_balances [] (some (-50))
      (some ("2024-01", ⟨2024, 1, 1⟩, ⟨2024, 1, 5⟩))) ≠ 5 := by
  decide

/-- C3 (amended): with opening balance −50, an empty transaction list, and a
5-day period, `count_negative_days` of `rebuild_daily_balances` returns 0,
because `rebuild_daily_balances` returns the empty mapping for an empty
transaction list. -/
theorem claim3 :
    count_negative_days (rebuild_daily_balances [] (some (-50))
      (some ("2024-01", ⟨2024, 1, 1⟩, ⟨2024, 1, 5⟩))) = 0 := by
  rfl

theorem roundQ_eq_floor (q : ℚ) : roundQ q = ⌊q + 1 / 2⌋ := by
  have hden : ((q.den : ℚ)) ≠ 0 := by
    exact_mod_cast q.den_nz
  have hqd : (q * q.den : ℚ) = (q.num : ℚ) := by
    have h : (q.num : ℚ) / (q.den : ℚ) = q := Rat.num_div_den q
    calc q * (q.den : ℚ) = ((q.num : ℚ) / (q.den : ℚ)) * (q.den : ℚ) := by rw [h]
      _ = (q.num : ℚ) := div_mul_cancel₀ _ hden
  have hB : (((2 * q.den : ℕ) : ℚ)) ≠ 0 := by
    exact_mod_cast Nat.mul_ne_zero two_ne_zero q.den_nz
  have hq : q + 1 / 2 = (((2 * q.num + q.den : ℤ) : ℚ)) / (((2 * q.den : ℕ) : ℚ)) := by
    rw [eq_div_iff hB]
    push_cast
    linear_combination 2 * hqd
  rw [hq, Rat.floor_intCast_div_natCast]
  unfold roundQ
  push_cast
  rfl

theorem isEmpty_false_of_ne_nil {α : Type} {l : List α} (h : l ≠ []) :
    l.isEmpty = false := by
  cases l with
  | nil => exact absurd rfl h
  | cons a t => rfl

theorem monthlyStep_zero (acc : List (String × ℕ) × List (String × ℕ) × List (String × ℚ))
    (t : Txn) (h : t.amount = 0) : monthlyStep acc t = acc := by
  unfold monthlyStep
  rw [h]
  norm_num

/-- C4: `pick_avg_revenue` averages the 3 largest monthly totals (or all of
them when fewer than 3 are supplied) when the state is truthy and
case-insensitively in {NY, CA}; otherwise (state `None`, empty, or any other
state) it averages all supplied monthly totals. In particular, the four-month
example yields 200.0 with state "NY" and 162.5 with state `None`. -/
theorem claim4 :
    (∀ (deps : List (String × ℚ)) (s : String), deps ≠ [] → s ≠ "" →
        (strUpper s = "NY" ∨ strUpper s = "CA") →
        pick_avg_revenue deps (some s) = some (roundTo 2 (specAvgBest3 deps)))
    ∧ (∀ (deps : List (String × ℚ)) (st : Option String), deps ≠ [] →
        (∀ s, st = some s → s = "" ∨ (strUpper s ≠ "NY" ∧ strUpper s ≠ "CA")) →
        pick_avg_revenue deps st = some (roundTo 2 (specAvgAll deps)))
    ∧ pick_avg_revenue
        [("2024-01", 100), ("2024-02", 200), ("2024-03", 300), ("2024-04", 50)]
        (some "NY") = some 200
    ∧ pick_avg_revenue
        [("2024-01", 100), ("2024-02", 200), ("2024-03", 300), ("2024-04", 50)]
        none = some (162.5 : ℚ) := by
  refine ⟨?_, ?_, by with_unfolding_all decide, by with_unfolding_all decide⟩
  · intro deps s hne hs hset
    have htr : strTruthy s = true := by
      unfold strTruthy
      simp [hs]
    have hcond : (strUpper s == "NY" || strUpper s == "CA") = true := by
      rcases hset with h | h <;> simp [h]
    unfold pick_avg_revenue
    rw [isEmpty_false_of_ne_nil hne]
    simp only [Bool.false_eq_true, if_false, htr, hcond, Bool.and_self, if_true]
    have hlen : (sortBy (fun a b : ℚ => decide (b ≤ a)) (deps.map Prod.snd)).length
        = deps.length := by
      rw [sortBy_length, List.length_map]
    have hdlen : 1 ≤ deps.length := by
      cases deps with
      | nil => exact absurd rfl hne
      | cons a t => simp
    by_cases h3 : 3 ≤ (sortBy (fun a b : ℚ => decide (b ≤ a)) (deps.map Prod.snd)).length
    · rw [if_pos h3]
      rw [isEmpty_false_of_ne_nil (List.ne_nil_of_length_pos
        (by rw [List.length_take]; omega))]
      simp [specAvgBest3]
    · rw [if_neg h3]
      rw [isEmpty_false_of_ne_nil (List.ne_nil_of_length_pos (by omega))]
      have htake : (sortBy (fun a b : ℚ => decide (b ≤ a)) (deps.map Prod.snd)).take 3
          = sortBy (fun a b : ℚ => decide (b ≤ a)) (deps.map Prod.snd) :=
        List.take_of_length_le (by omega)
      simp [specAvgBest3, htake]
  · intro deps st hne hst
    cases st with
    | none =>
        unfold pick_avg_revenue
        rw [isEmpty_false_of_ne_nil hne]
        simp [specAvgAll]
    | some s =>
        rcases hst s rfl with h | ⟨h1, h2⟩
        · unfold pick_avg_revenue
          rw [isEmpty_false_of_ne_nil hne]
          simp [strTruthy, h, specAvgAll]
        · unfold pick_avg_revenue
          rw [isEmpty_false_of_ne_nil hne]
          simp [h1, h2, specAvgAll]

/-- C4 witness: the best-3 branch applied to a concrete two-month mapping and
the lower-case state "ny". -/
theorem claim4_witness :
    pick_avg_revenue [("a", 1), ("b", 5)] (some "ny")
      = some (roundTo 2 (specAvgBest3 [("a", 1), ("b", 5)])) :=
  claim4.1 [("a", 1), ("b", 5)] "ny" (by decide)
    (by decide) (by with_unfolding_all decide)

/-- C10: a transaction with amount exactly 0 is counted by
`compute_monthly_counts_and_deposits` in neither the month's debit count nor
its credit count, and contributes nothing to the month's deposit total
(removing it leaves the whole result unchanged); consequently, for a month
holding only a zero-amount transaction, debit count + credit count (0) is
strictly less than the number of transactions of the month (1). -/
theorem claim10 :
    (∀ (xs ys : List Txn) (t : Txn), t.amount = 0 →
        compute_monthly_counts_and_deposits (xs ++ t :: ys)
          = compute_monthly_counts_and_deposits (xs ++ ys))
    ∧ (getCount (compute_monthly_counts_and_deposits
          [⟨⟨2024, 5, 2⟩, "adjustment", 0, none⟩]).1 "2024-05"
        + getCount (compute_monthly_counts_and_deposits
          [⟨⟨2024, 5, 2⟩, "adjustment", 0, none⟩]).2.1 "2024-05" = 0
      ∧ (([⟨⟨2024, 5, 2⟩, "adjustment", 0, none⟩] : List Txn).filter
          (fun t => month_key t.dt == "2024-05")).length = 1) := by
  refine ⟨?_, by decide, by decide⟩
  intro xs ys t h
  unfold compute_monthly_counts_and_deposits
  rw [List.foldl_append, List.foldl_append, List.foldl_cons, monthlyStep_zero _ t h]

/-- C10 witness: appending a zero-amount transaction to a one-transaction list
leaves the monthly counts and deposits unchanged. -/
theorem claim10_witness :
    compute_monthly_counts_and_deposits
        ([⟨⟨2024, 5, 1⟩, "sale", 20, none⟩] ++ ⟨⟨2024, 5, 2⟩, "adjustment", 0, none⟩ :: [])
      = compute_monthly_counts_and_deposits ([⟨⟨2024, 5, 1⟩, "sale", 20, none⟩] ++ []) :=
  claim10.1 [⟨⟨2024, 5, 1⟩, "sale", 20, none⟩] [] ⟨⟨2024, 5, 2⟩, "adjustment", 0, none⟩ (by decide)

theorem dateGaps_length : ∀ ds : List PyDate, (dateGaps ds).length = ds.length - 1
  | [] => rfl
  | [_] => rfl
  | a :: b :: rest => by
      have ih := dateGaps_length (b :: rest)
      show ((toRata b - toRata a) :: dateGaps (b :: rest)).length = _
      simp only [List.length_cons] at ih ⊢
      omega

theorem classify_foldl_eq : ∀ (gs : List (String × List PyDate)) (d w : List String),
    gs.foldl classifyStep (d, w)
      = (d ++ (gs.filter isDailyGroup).map Prod.fst,
         w ++ (gs.filter isWeeklyGroup).map Prod.fst) := by
  intro gs
  induction gs with
  | nil => intro d w; simp
  | cons g t ih =>
      intro d w
      rw [List.foldl_cons, List.filter_cons, List.filter_cons]
      by_cases h3 : g.2.length < 3
      · have hstep : classifyStep (d, w) g = (d, w) := by
          simp [classifyStep, h3]
        have hd : isDailyGroup g = false := by
          simp only [isDailyGroup, groupInBand, Bool.and_eq_false_iff]
          left
          simpa using h3
        have hw : isWeeklyGroup g = false := by
          simp only [isWeeklyGroup, groupInBand, Bool.and_eq_false_iff]
          left
          simpa using h3
        rw [hstep, ih, hd, hw]
        simp
      · have hgaps : (dateGaps (sortBy dateLe g.2)).isEmpty = false := by
          have h1 : (dateGaps (sortBy dateLe g.2)).length = g.2.length - 1 := by
            rw [dateGaps_length, sortBy_length]
          apply isEmpty_false_of_ne_nil
          intro hc
          rw [hc] at h1
          simp at h1
          omega
        by_cases hdy : 0.8 ≤ median (dateGaps (sortBy dateLe g.2))
            ∧ median (dateGaps (sortBy dateLe g.2)) ≤ 1.3
        · have hstep : classifyStep (d, w) g = (d ++ [g.1], w) := by
            simp [classifyStep, h3, hgaps, hdy]
          have hd : isDailyGroup g = true := by
            simp only [isDailyGroup, groupInBand, Bool.and_eq_true, decide_eq_true_eq]
            exact ⟨by simpa using h3, hdy.1, hdy.2⟩
          have hw : isWeeklyGroup g = false := by
            simp only [isWeeklyGroup, groupInBand, Bool.and_eq_false_iff]
            right
            left
            simp only [decide_eq_false_iff_not, not_le]
            calc median (dateGaps (sortBy dateLe g.2)) ≤ 1.3 := hdy.2
              _ < 5.5 := by norm_num
          rw [hstep, ih, hd, hw]
          simp
        · by_cases hwk : 5.5 ≤ median (dateGaps (sortBy dateLe g.2))
              ∧ median (dateGaps (sortBy dateLe g.2)) ≤ 8.5
          · have hstep : classifyStep (d, w) g = (d, w ++ [g.1]) := by
              simp [classifyStep, h3, hgaps, hdy, hwk]
            have hd : isDailyGroup g = false := by
              simp only [isDailyGroup, groupInBand, Bool.and_eq_false_iff]
              right
              right
              simp only [decide_eq_false_iff_not, not_le]
              calc (1.3 : ℚ) < 5.5 := by norm_num
                _ ≤ median (dateGaps (sortBy dateLe g.2)) := hwk.1
            have hw : isWeeklyGroup g = true := by
              simp only [isWeeklyGroup, groupInBand, Bool.and_eq_true, decide_eq_true_eq]
              exact ⟨by simpa using h3, hwk.1, hwk.2⟩
            rw [hstep, ih, hd, hw]
            simp
          · have hstep : classifyStep (d, w) g = (d, w) := by
              simp [classifyStep, h3, hgaps, hdy, hwk]
            have hd : isDailyGroup g = false := by
              simp only [isDailyGroup, groupInBand, Bool.and_eq_false_iff]
              rcases (not_and_or.mp hdy) with h | h
              · right
                left
                simpa using h
              · right
                right
                simpa using h
            have hw : isWeeklyGroup g = false := by
              simp only [isWeeklyGroup, groupInBand, Bool.and_eq_false_iff]
              rcases (not_and_or.mp hwk) with h | h
              · right
                left
                simpa using h
              · right
                right
                simpa using h
            rw [hstep, ih, hd, hw]
            simp

theorem topk_spec (l : List String) :
    (topk l).length ≤ 5 ∧ (topk l).Pairwise (fun a b => a ≤ b) ∧ (topk l).Nodup := by
  refine ⟨?_, ?_, ?_⟩
  · unfold topk
    simp [List.length_take]
  · have hs := sortBy_sorted (fun a b : String => decide (a ≤ b))
      (fun a b => by rcases le_total a b with h | h <;> simp [h])
      (fun a b c hab hbc => by
        simp only [decide_eq_true_eq] at hab hbc ⊢
        exact le_trans hab hbc)
      l.dedup
    have ht := List.Pairwise.sublist (List.take_sublist 5 _) hs
    exact ht.imp (fun hab => by simpa using hab)
  · exact (List.take_sublist 5 _).nodup (sortBy_nodup _ _ (List.nodup_dedup l))

/-- C5: `detect_positions` groups transaction dates by normalized description,
discards every group with fewer than 3 occurrences, classifies a group as
"daily" exactly when the median gap in days between consecutive sorted
occurrences is in [0.8, 1.3] and as "weekly" exactly when it is in [5.5, 8.5]
(the two bands are disjoint, so the `elif` matches the band membership
exactly), and returns at most 5 sorted unique names per bucket. A description
occurring on four dates 7 days apart is classified weekly; one occurring on
10 non-periodic dates (median gap 4 days) is excluded entirely. -/
theorem claim5 :
    (∀ txns : List Txn, detect_positions txns
        = (topk (((buildGroups txns).filter isDailyGroup).map Prod.fst),
           topk (((buildGroups txns).filter isWeeklyGroup).map Prod.fst)))
    ∧ (∀ l : List String, (topk l).length ≤ 5
        ∧ (topk l).Pairwise (fun a b => a ≤ b) ∧ (topk l).Nodup)
    ∧ detect_positions
        [⟨⟨2024, 1, 1⟩, "Acme Payroll", -100, none⟩,
         ⟨⟨2024, 1, 8⟩, "Acme Payroll", -100, none⟩,
         ⟨⟨2024, 1, 15⟩, "Acme Payroll", -100, none⟩,
         ⟨⟨2024, 1, 22⟩, "Acme Payroll", -100, none⟩]
      = ([], ["acme payroll"])
    ∧ detect_positions
        [⟨⟨2024, 1, 1⟩, "Vendor Pay", -10, none⟩,
         ⟨⟨2024, 1, 2⟩, "Vendor Pay", -10, none⟩,
         ⟨⟨2024, 1, 12⟩, "Vendor Pay", -10, none⟩,
         ⟨⟨2024, 1, 14⟩, "Vendor Pay", -10, none⟩,
         ⟨⟨2024, 1, 18⟩, "Vendor Pay", -10, none⟩,
         ⟨⟨2024, 2, 17⟩, "Vendor Pay", -10, none⟩,
         ⟨⟨2024, 2, 20⟩, "Vendor Pay", -10, none⟩,
         ⟨⟨2024, 3, 21⟩, "Vendor Pay", -10, none⟩,
         ⟨⟨2024, 3, 25⟩, "Vendor Pay", -10, none⟩,
         ⟨⟨2024, 4, 24⟩, "Vendor Pay", -10, none⟩]
      = ([], []) := by
  refine ⟨?_, topk_spec, by with_unfolding_all decide, by with_unfolding_all decide⟩
  intro txns
  unfold detect_positions
  rw [classify_foldl_eq]
  simp

theorem roundTo2_conf_bounds (q : ℚ) (h1 : 0.28 ≤ q) (h2 : q ≤ 0.98) :
    0 < roundTo 2 q ∧ roundTo 2 q ≤ 0.98 := by
  unfold roundTo
  rw [roundQ_eq_floor]
  have hf1 : (28 : ℤ) ≤ ⌊q * 10 ^ 2 + 1 / 2⌋ := by
    apply Int.le_floor.mpr
    push_cast
    linarith
  have hf2 : ⌊q * 10 ^ 2 + 1 / 2⌋ ≤ 98 := by
    have h99 : (q * 10 ^ 2 + 1 / 2 : ℚ) < ((99 : ℤ) : ℚ) := by
      push_cast
      linarith
    have := Int.floor_lt.mpr h99
    omega
  constructor
  · apply div_pos
    · exact_mod_cast lt_of_lt_of_le (by norm_num : (0 : ℤ) < 28) hf1
    · norm_num
  · rw [div_le_iff₀ (by norm_num : (0 : ℚ) < 10 ^ 2)]
    calc ((⌊q * 10 ^ 2 + 1 / 2⌋ : ℤ) : ℚ) ≤ 98 := by exact_mod_cast hf2
      _ ≤ 0.98 * 10 ^ 2 := by norm_num

theorem best_anchor_hits_score (sim : String → String → ℕ) (lines_lower : List String)
    (anchors : List String) :
    ∀ h ∈ best_anchor_hits_local sim lines_lower anchors, 80 ≤ h.2.2 := by
  intro h hm
  unfold best_anchor_hits_local at hm
  rw [mem_sortBy, List.mem_flatMap] at hm
  obtain ⟨p, _, hmem⟩ := hm
  rw [List.mem_filterMap] at hmem
  obtain ⟨a, _, heq⟩ := hmem
  by_cases hs : 80 ≤ sim a p.2
  · rw [if_pos hs] at heq
    cases heq
    exact hs
  · rw [if_neg hs] at heq
    cases heq

theorem fwaStep_preserves {α : Type} (truthy : α → Bool) (lines : List String)
    (extractor : String → Option α) (conf_base : ℚ) (hcb : 0 ≤ conf_base)
    (b : FieldResult α) (h : ℕ × String × ℕ) (hsc : 80 ≤ h.2.2)
    (hb : b = ⟨none, 0, []⟩
      ∨ (pyTruthyOpt truthy b.value = true ∧ 0 < b.confidence ∧ b.confidence ≤ 0.98)) :
    fwaStep truthy lines extractor conf_base b h = ⟨none, 0, []⟩
      ∨ (pyTruthyOpt truthy (fwaStep truthy lines extractor conf_base b h).value = true
          ∧ 0 < (fwaStep truthy lines extractor conf_base b h).confidence
          ∧ (fwaStep truthy lines extractor conf_base b h).confidence ≤ 0.98) := by
  unfold fwaStep
  by_cases htv : pyTruthyOpt truthy (extractor (window lines h.1 2)) = true
  · rw [if_pos htv]
    by_cases hcmp : b.confidence < min (conf_base + (h.2.2 : ℚ) / 100 * 0.35) 0.98
    · rw [if_pos hcmp]
      right
      refine ⟨htv, ?_⟩
      have hcf : 0.28 ≤ min (conf_base + (h.2.2 : ℚ) / 100 * 0.35) 0.98 := by
        apply le_min
        · have hsq : (80 : ℚ) ≤ (h.2.2 : ℚ) := by exact_mod_cast hsc
          linarith
        · norm_num
      exact roundTo2_conf_bounds _ hcf (min_le_right _ _)
    · rw [if_neg hcmp]
      exact hb
  · rw [if_neg htv]
    exact hb

theorem fwa_fold_inv {α : Type} (truthy : α → Bool) (lines : List String)
    (extractor : String → Option α) (conf_base : ℚ) (hcb : 0 ≤ conf_base) :
    ∀ (hs : List (ℕ × String × ℕ)), (∀ h ∈ hs, 80 ≤ h.2.2) →
      ∀ b : FieldResult α,
        (b = ⟨none, 0, []⟩
          ∨ (pyTruthyOpt truthy b.value = true ∧ 0 < b.confidence ∧ b.confidence ≤ 0.98)) →
        (hs.foldl (fwaStep truthy lines extractor conf_base) b = ⟨none, 0, []⟩
          ∨ (pyTruthyOpt truthy (hs.foldl (fwaStep truthy lines extractor conf_base) b).value = true
              ∧ 0 < (hs.foldl (fwaStep truthy lines extractor conf_base) b).confidence
              ∧ (hs.foldl (fwaStep truthy lines extractor conf_base) b).confidence ≤ 0.98)) := by
  intro hs
  induction hs with
  | nil => intro _ b hb; exact hb
  | cons h t ih =>
      intro hall b hb
      rw [List.foldl_cons]
      exact ih (fun x hx => hall x (List.mem_cons_of_mem _ hx))
        _ (fwaStep_preserves truthy lines extractor conf_base hcb b h
            (hall h (List.mem_cons_self _ _)) hb)

theorem fwa_fold_id {α : Type} (truthy : α → Bool) (lines : List String)
    (extractor : String → Option α) (conf_base : ℚ) :
    ∀ (hs : List (ℕ × String × ℕ)),
      (∀ h ∈ hs, pyTruthyOpt truthy (extractor (window lines h.1 2)) = false) →
      ∀ b : FieldResult α, hs.foldl (fwaStep truthy lines extractor conf_base) b = b := by
  intro hs
  induction hs with
  | nil => intro _ b; rfl
  | cons h t ih =>
      intro hall b
      rw [List.foldl_cons]
      have hstep : fwaStep truthy lines extractor conf_base b h = b := by
        unfold fwaStep
        rw [hall h (List.mem_cons_self _ _)]
        simp
      rw [hstep]
      exact ih (fun x hx => hall x (List.mem_cons_of_mem _ hx)) b

theorem fwa_characterization {α : Type} (sim : String → String → ℕ) (truthy : α → Bool)
    (lines lines_lower : List String) (field_key : String)
    (anchors : String → List String) (extractor : String → Option α)
    (conf_base : ℚ) (hcb : 0 ≤ conf_base) :
    find_with_anchors sim truthy lines lines_lower field_key anchors extractor conf_base
        = ⟨none, 0, []⟩
    ∨ (pyTruthyOpt truthy (find_with_anchors sim truthy lines lines_lower field_key
          anchors extractor conf_base).value = true
        ∧ 0 < (find_with_anchors sim truthy lines lines_lower field_key
            anchors extractor conf_base).confidence
        ∧ (find_with_anchors sim truthy lines lines_lower field_key
            anchors extractor conf_base).confidence ≤ 0.98)
    ∨ (pyTruthyOpt truthy (find_with_anchors sim truthy lines lines_lower field_key
          anchors extractor conf_base).value = true
        ∧ (find_with_anchors sim truthy lines lines_lower field_key
            anchors extractor conf_base).confidence = 0.45) := by
  have hinv := fwa_fold_inv truthy lines extractor conf_base hcb
    ((best_anchor_hits_local sim lines_lower (anchors field_key)).take 8)
    (fun h hm => best_anchor_hits_score sim lines_lower (anchors field_key) h
      (List.mem_of_mem_take hm))
    ⟨none, 0, []⟩ (Or.inl rfl)
  simp only [find_with_anchors]
  by_cases hb : pyTruthyOpt truthy
      (((best_anchor_hits_local sim lines_lower (anchors field_key)).take 8).foldl
        (fwaStep truthy lines extractor conf_base) ⟨none, 0, []⟩).value = true
  · rw [hb]
    simp only [Bool.not_true, Bool.false_eq_true, if_false]
    rcases hinv with hl | hr
    · rw [hl] at hb
      simp [pyTruthyOpt] at hb
    · exact Or.inr (Or.inl hr)
  · rw [Bool.not_eq_true] at hb
    rw [hb]
    simp only [Bool.not_false, if_true]
    by_cases hht : pyTruthyOpt truthy
        (pyOr truthy (extractor (String.intercalate " | " (lines.take 60)))
          (extractor (String.intercalate " | " (lines.drop (lines.length - 60))))) = true
    · rw [if_pos hht]
      exact Or.inr (Or.inr ⟨hht, rfl⟩)
    · rw [if_neg hht]
      exact Or.inl rfl

/-- C1: the field resolver `find_with_anchors` (as used with nonnegative base
confidences 0.55–0.72 for BusinessName, State, Industry, FICO and
LengthOfOwnership) is total (the embedding is a Lean function, so it never
raises) and always returns a `FieldResult` whose confidence lies in [0, 1],
with confidence 0 exactly when the value is `None`; when no anchor-window
extraction and no head/tail fallback yields a truthy value, the result is
exactly `FieldResult(None, 0.0, {})`. The State confidence nudge and the
final BusinessName confidence assignment in `extract_fields_from_bytes`
preserve the invariant. -/
theorem claim1 {α : Type} (sim : String → String → ℕ) (truthy : α → Bool)
    (lines lines_lower : List String) (field_key : String)
    (anchors : String → List String) (extractor : String → Option α)
    (conf_base : ℚ) (hcb : 0 ≤ conf_base) :
    (0 ≤ (find_with_anchors sim truthy lines lines_lower field_key anchors
          extractor conf_base).confidence
      ∧ (find_with_anchors sim truthy lines lines_lower field_key anchors
          extractor conf_base).confidence ≤ 1)
    ∧ ((find_with_anchors sim truthy lines lines_lower field_key anchors
          extractor conf_base).confidence = 0
        ↔ (find_with_anchors sim truthy lines lines_lower field_key anchors
            extractor conf_base).value = none)
    ∧ ((∀ h ∈ (best_anchor_hits_local sim lines_lower (anchors field_key)).take 8,
          pyTruthyOpt truthy (extractor (window lines h.1 2)) = false) →
        pyTruthyOpt truthy (extractor (String.intercalate " | " (lines.take 60))) = false →
        pyTruthyOpt truthy (extractor (String.intercalate " | "
          (lines.drop (lines.length - 60)))) = false →
        find_with_anchors sim truthy lines lines_lower field_key anchors
          extractor conf_base = ⟨none, 0, []⟩)
    ∧ (∀ st : FieldResult String, 0 ≤ st.confidence → st.confidence ≤ 1 →
        (st.confidence = 0 ↔ st.value = none) →
        ((0 ≤ (state_conf_nudge st).confidence ∧ (state_conf_nudge st).confidence ≤ 1)
          ∧ ((state_conf_nudge st).confidence = 0 ↔ (state_conf_nudge st).value = none)))
    ∧ (∀ (bn : FieldResult String) (boost : ℚ), 0 ≤ boost →
        (bn.value = none → bn.confidence = 0) →
        (∀ s, bn.value = some s → s ≠ "") →
        ((0 ≤ (bn_conf_final boost bn).confidence ∧ (bn_conf_final boost bn).confidence ≤ 1)
          ∧ ((bn_conf_final boost bn).confidence = 0 ↔ (bn_conf_final boost bn).value = none))) := by
  have hchar := fwa_characterization sim truthy lines lines_lower field_key anchors
    extractor conf_base hcb
  refine ⟨?_, ?_, ?_, ?_, ?_⟩
  · rcases hchar with h | ⟨_, h1, h2⟩ | ⟨_, h⟩
    · rw [h]
      norm_num
    · constructor
      · linarith
      · linarith [h2]
  -- fallthrough: third case
    · rw [h]
      norm_num
  · rcases hchar with h | ⟨hv, h1, _⟩ | ⟨hv, h⟩
    · rw [h]
      simp
    · constructor
      · intro h0
        rw [h0] at h1
        exact absurd h1 (lt_irrefl 0)
      · intro hn
        rw [hn] at hv
        simp [pyTruthyOpt] at hv
    · constructor
      · intro h0
        rw [h0] at h
        norm_num at h
      · intro hn
        rw [hn] at hv
        simp [pyTruthyOpt] at hv
  · intro hwin hhead htail
    simp only [find_with_anchors]
    rw [fwa_fold_id truthy lines extractor conf_base _ hwin]
    have hor : pyOr truthy (extractor (String.intercalate " | " (lines.take 60)))
        (extractor (String.intercalate " | " (lines.drop (lines.length - 60))))
        = extractor (String.intercalate " | " (lines.drop (lines.length - 60))) := by
      unfold pyOr
      rw [hhead]
      simp
    rw [hor, htail]
    simp [pyTruthyOpt]
  · intro st h0 h1 hiff
    unfold state_conf_nudge
    by_cases hv : pyTruthyOpt strTruthy st.value = true
    · rw [if_pos hv]
      have hvs : st.value ≠ none := by
        intro hn
        rw [hn] at hv
        simp [pyTruthyOpt] at hv
      by_cases htag : (["city,st,zip", "zip-only", "block "].any
          (fun tag => strSub tag (evLine st))) = true
      · rw [if_pos htag]
        dsimp only
        have hge : (0.84 : ℚ) ≤ min 0.99 (max st.confidence 0.76 + 0.08) := by
          apply le_min
          · norm_num
          · have := le_max_right st.confidence 0.76
            linarith
        refine ⟨⟨by linarith, ?_⟩, ?_⟩
        · calc min 0.99 (max st.confidence 0.76 + 0.08) ≤ 0.99 := min_le_left _ _
            _ ≤ 1 := by norm_num
        · constructor
          · intro hcontra
            exfalso
            rw [hcontra] at hge
            norm_num at hge
          · intro hn
            exact absurd hn hvs
      · rw [if_neg htag]
        exact ⟨⟨h0, h1⟩, hiff⟩
    · rw [if_neg hv]
      exact ⟨⟨h0, h1⟩, hiff⟩
  · intro bn boost hboost hnone hne
    unfold bn_conf_final
    by_cases hv : pyTruthyOpt strTruthy bn.value = true
    · rw [if_pos hv]
      dsimp only
      have hvs : bn.value ≠ none := by
        intro hn
        rw [hn] at hv
        simp [pyTruthyOpt] at hv
      have hge : (0.70 : ℚ) ≤ min 0.99 (max bn.confidence 0.70 + boost) := by
        apply le_min
        · norm_num
        · have := le_max_right bn.confidence 0.70
          linarith
      refine ⟨⟨by linarith, ?_⟩, ?_⟩
      · calc min 0.99 (max bn.confidence 0.70 + boost) ≤ 0.99 := min_le_left _ _
          _ ≤ 1 := by norm_num
      · constructor
        · intro hcontra
          exfalso
          rw [hcontra] at hge
          norm_num at hge
        · intro hn
          exact absurd hn hvs
    · rw [if_neg hv]
      have hvn : bn.value = none := by
        cases hval : bn.value with
        | none => rfl
        | some s =>
            exfalso
            rw [hval] at hv
            simp only [pyTruthyOpt, strTruthy] at hv
            apply hne s hval
            simpa using hv
      have hc0 := hnone hvn
      rw [hvn, hc0]
      simp

/-- C1 witness: the resolver invariant instantiated at a concrete two-line
document, an exact-match similarity function, a substring extractor and the
FICO base confidence 0.6. -/
theorem claim1_witness :
    0 ≤ (find_with_anchors (fun a l => if a == l then 100 else 0) strTruthy
        ["fico score", "720"] ["fico score", "720"] "fico" (fun _ => ["fico"])
        (fun w => if strSub "720" w then some "720" else none) 0.6).confidence
    ∧ (find_with_anchors (fun a l => if a == l then 100 else 0) strTruthy
        ["fico score", "720"] ["fico score", "720"] "fico" (fun _ => ["fico"])
        (fun w => if strSub "720" w then some "720" else none) 0.6).confidence ≤ 1 :=
  (claim1 (fun a l => if a == l then 100 else 0) strTruthy
    ["fico score", "720"] ["fico score", "720"] "fico" (fun _ => ["fico"])
    (fun w => if strSub "720" w then some "720" else none) 0.6 (by norm_num)).1

/-- C7: for every text window containing none of the fixed duration-context
keywords (case-insensitively, as substrings of the lowercased window), the
strict time-in-business parser returns `None`, regardless of any year, month
or date tokens present and regardless of the date parser and current time. -/
theorem claim7 (dp : String → Option PyDateTime) (now : PyDateTime) (neigh : String)
    (h : ∀ k ∈ TIB_KEYWORDS, strSub k (strLower neigh) = false) :
    parse_tib_value_strict dp now neigh = none := by
  unfold parse_tib_value_strict
  have hany : (TIB_KEYWORDS.any (fun k => strSub k (strLower neigh))) = false := by
    rw [List.any_eq_false]
    intro k hk
    simp [h k hk]
  rw [hany]
  simp

/-- C7 witness: a window with a FICO score and a date but no duration-context
keyword parses to `None`. -/
theorem claim7_witness :
    parse_tib_value_strict (fun _ => none) ⟨739252, 2024⟩ "FICO 720 on 01/02/2020" = none :=
  claim7 (fun _ => none) ⟨739252, 2024⟩ "FICO 720 on 01/02/2020" (by decide)

/-- C8 counterexample: `extract_fields_from_bytes` reads the ambient clock
through `parse_tib_value_strict` (`datetime.now()`), so two runs on
byte-identical input at different dates produce different `FieldResult`
values for LengthOfOwnership: the window "Established in 2015" parses to
(108.0 months, 9.0 years) when the current year is 2024 and to
(120.0 months, 10.0 years) when it is 2025. The extraction is therefore not
a deterministic function of the input bytes alone. -/
theorem claim8_counterexample :
    parse_tib_value_strict (fun _ => none) ⟨739252, 2024⟩ "Established in 2015"
      ≠ parse_tib_value_strict (fun _ => none) ⟨739617, 2025⟩ "Established in 2015" := by
  with_unfolding_all decide

/-- C8 (amended): extraction is a deterministic function of the input bytes
together with the ambient state it reads (the current date and the external
parser/OCR behaviour). In particular, whenever the window carries an explicit
"N years M months" duration (the first grammar of `parse_tib_value_strict`),
the parsed LengthOfOwnership value does not depend on the current time at
all. -/
theorem claim8 (dp : String → Option PyDateTime) (now₁ now₂ : PyDateTime)
    (neigh : String) (hym : (reYearsMonths neigh).isSome = true) :
    parse_tib_value_strict dp now₁ neigh = parse_tib_value_strict dp now₂ neigh := by
  obtain ⟨p, hp⟩ := Option.isSome_iff_exists.mp hym
  unfold parse_tib_value_strict
  rw [hp]

/-- C8 witness: an explicit-duration window parses identically under two
different current dates. -/
theorem claim8_witness :
    parse_tib_value_strict (fun _ => none) ⟨739252, 2024⟩ "time in business: 3 yrs 4 mos"
      = parse_tib_value_strict (fun _ => none) ⟨739617, 2025⟩ "time in business: 3 yrs 4 mos" :=
  claim8 (fun _ => none) ⟨739252, 2024⟩ ⟨739617, 2025⟩ "time in business: 3 yrs 4 mos"
    (by decide)

/-- Every evidence string produced by the address-block layer starts with
the two characters of a block tag. -/
theorem blockScan_ev : ∀ (bs : List String) (r : String × String),
    blockScan bs = some r → r.2.data.take 2 = ['[', 'b'] := by
  intro bs
  induction bs with
  | nil => intro r h; simp [blockScan] at h
  | cons block rest ih =>
      intro r h
      unfold blockScan at h
      split at h
      · injection h with h1; subst h1; rfl
      · injection h with h1; subst h1; rfl
      · injection h with h1; subst h1; rfl
      · exact ih r h

/-- **C6.** State-resolution precedence in
`extract_state_stronger_multiline`: (1) whenever `RE_CITY_STATE_ZIP` matches
the window with a valid state abbreviation, the result is that state with
city-st-zip evidence, regardless of any bare two-letter state token
elsewhere in the window; (2) a result carrying bare-token evidence can only
arise after the city-st-zip, full-state-name, ZIP3 and stitched-address-block
layers have all failed, and only when the word "address" occurs in the
window. -/
theorem claim6 :
    (∀ (all_lines : List String) (win st : String),
        findCityStZip win = some st → isUSState st = true →
        extract_state_stronger_multiline all_lines win
          = some (st, "[city,st,zip] " ++ win)) ∧
    (∀ (all_lines : List String) (win v ev : String),
        extract_state_stronger_multiline all_lines win = some (v, ev) →
        ev = "[address token] " ++ win →
        validCsz win = none ∧ stateNameHit win = none ∧
        zipAbbr win = none ∧
        blockScan (collect_address_blocks all_lines) = none ∧
        strSub "address" (strLower win) = true) := by
  constructor
  · intro all_lines win st h1 h2
    have hv : validCsz win = some st := by
      unfold validCsz
      rw [h1]
      simp [h2]
    unfold extract_state_stronger_multiline
    rw [hv]
  · intro all_lines win v ev h hev
    subst hev
    unfold extract_state_stronger_multiline at h
    split at h
    · injection h with h1
      have h2 : (['[', 'c'] : List Char) = ['[', 'a'] :=
        congrArg (fun p : String × String => p.2.data.take 2) h1
      exact absurd h2 (by decide)
    · injection h with h1
      have h2 : (['[', 's'] : List Char) = ['[', 'a'] :=
        congrArg (fun p : String × String => p.2.data.take 2) h1
      exact absurd h2 (by decide)
    · injection h with h1
      have h2 : (['[', 'z'] : List Char) = ['[', 'a'] :=
        congrArg (fun p : String × String => p.2.data.take 2) h1
      exact absurd h2 (by decide)
    · rename_i r heq1 heq2 heq3 heq4
      injection h with h1
      have hb := blockScan_ev (collect_address_blocks all_lines) r heq4
      rw [h1] at hb
      have hb2 : (['[', 'a'] : List Char) = ['[', 'b'] := hb
      exact absurd hb2 (by decide)
    · rename_i heq1 heq2 heq3 heq4
      by_cases hc : strSub "address" (strLower win) = true
      · exact ⟨heq1, heq2, heq3, heq4, hc⟩
      · rw [if_neg hc] at h
        exact absurd h (by simp)

/-- Concrete instantiation of both parts of the state-precedence theorem:
a window with both a city-st-zip match and a bare token resolves through the
first layer, and an address-token result certifies that the earlier layers
failed. -/
theorem claim6_witness :
    (extract_state_stronger_multiline ["TX"]
        "Mail: Springfield, IL 62704 near TX office"
      = some ("IL", "[city,st,zip] Mail: Springfield, IL 62704 near TX office")) ∧
    (validCsz "Registered address: contact XY Corp office in NV" = none ∧
     stateNameHit "Registered address: contact XY Corp office in NV" = none ∧
     zipAbbr "Registered address: contact XY Corp office in NV" = none ∧
     blockScan (collect_address_blocks ["TX"]) = none ∧
     strSub "address"
       (strLower "Registered address: contact XY Corp office in NV") = true) := by
  constructor
  · exact (claim6.1 ["TX"] "Mail: Springfield, IL 62704 near TX office" "IL"
      (by decide) (by decide)).trans (by decide)
  · exact claim6.2 ["TX"] "Registered address: contact XY Corp office in NV"
      "NV"
      ("[address token] " ++ "Registered address: contact XY Corp office in NV")
      (by decide) rfl

/-- A digit below ten renders as a decimal digit character. -/
theorem digitChar_isDigit (k : ℕ) (h : k < 10) :
    (Nat.digitChar k).isDigit = true := by
  interval_cases k <;> decide

/-- A mod-ten digit renders as a decimal digit character. -/
theorem digitChar_mod_isDigit (k : ℕ) :
    (Nat.digitChar (k % 10)).isDigit = true :=
  digitChar_isDigit _ (Nat.mod_lt _ (by norm_num))

/-- Every label the f-string builds from a year of at most four digits and
a month of at most two digits has the YYYY-MM shape. -/
theorem wellFormedYM_ymLabel (y m : ℕ) (hy : y ≤ 9999) (hm : m ≤ 99) :
    wellFormedYM (ymLabel y m) = true := by
  unfold ymLabel wellFormedYM pad4 pad2
  rw [if_pos (by omega : y < 10000), if_pos (by omega : m < 100)]
  simp [digitChar_mod_isDigit]

/-- The running-maximum fold stays within the candidates. -/
theorem foldl_max_mem (l : List PyDate) (a : PyDate) :
    l.foldl (fun acc u => if dateLt acc u then u else acc) a ∈ a :: l := by
  induction l generalizing a with
  | nil => simp
  | cons b t ih =>
      simp only [List.foldl_cons]
      by_cases hc : dateLt a b = true
      · rw [if_pos hc]
        exact List.mem_cons_of_mem a (ih b)
      · rw [if_neg hc]
        rcases List.mem_cons.mp (ih a) with h1 | h1
        · rw [h1]; exact List.mem_cons_self a (b :: t)
        · exact List.mem_cons_of_mem a (List.mem_cons_of_mem b h1)

/-- Python max over a nonempty date list returns one of its elements. -/
theorem maxDateList_mem (l : List PyDate) (d : PyDate)
    (h : maxDateList l = some d) : d ∈ l := by
  cases l with
  | nil => simp [maxDateList] at h
  | cons a t =>
      unfold maxDateList at h
      injection h with h1
      rw [← h1]
      exact foldl_max_mem t a

/-- Every label _month_from_filename produces has the YYYY-MM shape: both
filename arms validate their integer captures through the date constructor
before formatting. -/
theorem mff_wf (f1 f2 : Option (ℕ × ℕ × ℕ)) (t : String × PyDate × PyDate)
    (h : _month_from_filename f1 f2 = some t) : wellFormedYM t.1 = true := by
  have main : ∀ (mo dd y : ℕ),
      (if okDate y mo dd && okMonthEnd y mo then
        some (ymLabel y mo, (⟨y, mo, 1⟩ : PyDate), lastDayOfMonth y mo)
      else none) = some t → wellFormedYM t.1 = true := by
    intro mo dd y hif
    by_cases hc : (okDate y mo dd && okMonthEnd y mo) = true
    · rw [if_pos hc] at hif
      injection hif with h1
      have hok := of_decide_eq_true (Bool.and_elim_left hc)
      obtain ⟨h1y, h2y, h1m, h2m, _⟩ := hok
      rw [← h1]
      exact wellFormedYM_ymLabel y mo (by omega) (by omega)
    · rw [if_neg hc] at hif
      exact absurd hif (by simp)
  cases f1 with
  | some v =>
      obtain ⟨mo, dd, y⟩ := v
      exact main mo dd y h
  | none =>
      cases f2 with
      | some v =>
          obtain ⟨y, mo, dd⟩ := v
          exact main mo dd y h
      | none => simp [_month_from_filename] at h

/-- Every label month_from_period returns has the YYYY-MM shape, given the
datetime.date invariant on the parser-supplied dates (parse always yields
years between 1 and 9999 and months between 1 and 12). -/
theorem mfp_label (inp : MfpInput)
    (hA : ∀ p, inp.mA = some p → ValidDate p.2 ∧ p.2.y ≤ 9999)
    (hB : ∀ p, inp.mB = some p → ValidDate p.2 ∧ p.2.y ≤ 9999)
    (hC : ∀ d, inp.mC = some d → ValidDate d ∧ d.y ≤ 9999)
    (hD : ∀ d, d ∈ inp.mD → ValidDate d ∧ d.y ≤ 9999) :
    ∀ t, month_from_period inp = Except.ok (some t) →
      wellFormedYM t.1 = true := by
  intro t h
  obtain ⟨mA, mB, mC, mD, mF1, mF2⟩ := inp
  dsimp only at hA hB hC hD
  unfold month_from_period at h
  dsimp only at h
  cases mA with
  | some p =>
      obtain ⟨d1, d2⟩ := p
      injection h with h1
      injection h1 with h2
      obtain ⟨hv, hy⟩ := hA (d1, d2) rfl
      have hv2 : ValidDate d2 := hv
      have hy2 : d2.y ≤ 9999 := hy
      obtain ⟨_, _, hm, _⟩ := hv2
      rw [← h2]
      exact wellFormedYM_ymLabel d2.y d2.m hy2 (by omega)
  | none =>
  cases mB with
  | some p =>
      obtain ⟨d1, d2⟩ := p
      injection h with h1
      injection h1 with h2
      obtain ⟨hv, hy⟩ := hB (d1, d2) rfl
      have hv2 : ValidDate d2 := hv
      have hy2 : d2.y ≤ 9999 := hy
      obtain ⟨_, _, hm, _⟩ := hv2
      rw [← h2]
      exact wellFormedYM_ymLabel d2.y d2.m hy2 (by omega)
  | none =>
  cases mC with
  | some d =>
      simp only [Option.some_bind] at h
      by_cases hc : okMonthEnd d.y d.m = true
      · rw [if_pos hc] at h
        injection h with h1
        injection h1 with h2
        obtain ⟨hv, hy⟩ := hC d rfl
        obtain ⟨_, _, hm, _⟩ := hv
        rw [← h2]
        exact wellFormedYM_ymLabel d.y d.m hy (by omega)
      · rw [if_neg hc] at h
        cases hmax : maxDateList mD with
        | some dmax =>
            rw [hmax] at h
            dsimp only at h
            by_cases hc2 : okMonthEnd dmax.y dmax.m = true
            · rw [if_pos hc2] at h
              injection h with h1
              injection h1 with h2
              obtain ⟨hv, hy⟩ := hD dmax (maxDateList_mem mD dmax hmax)
              obtain ⟨_, _, hm, _⟩ := hv
              rw [← h2]
              exact wellFormedYM_ymLabel dmax.y dmax.m hy (by omega)
            · rw [if_neg hc2] at h
              exact absurd h (by simp)
        | none =>
            rw [hmax] at h
            dsimp only at h
            injection h with h1
            exact mff_wf mF1 mF2 t h1
  | none =>
  simp only [Option.none_bind] at h
  cases hmax : maxDateList mD with
  | some dmax =>
      rw [hmax] at h
      dsimp only at h
      by_cases hc2 : okMonthEnd dmax.y dmax.m = true
      · rw [if_pos hc2] at h
        injection h with h1
        injection h1 with h2
        obtain ⟨hv, hy⟩ := hD dmax (maxDateList_mem mD dmax hmax)
        obtain ⟨_, _, hm, _⟩ := hv
        rw [← h2]
        exact wellFormedYM_ymLabel dmax.y dmax.m hy (by omega)
      · rw [if_neg hc2] at h
        exact absurd h (by simp)
  | none =>
      rw [hmax] at h
      dsimp only at h
      injection h with h1
      exact mff_wf mF1 mF2 t h1

/-- **C9 (amended).** The statement_month field built by summarize_statement
is either a well-formed YYYY-MM string (four digits, hyphen, two digits) or
the sentinel, and is never partially formed: whenever month_from_period
completes, the label is either a full f-string label or the fallback. The
sentinel in the code is "[unknown]", not "unknown" as claimed. Hypotheses:
the dates produced by the date parser satisfy the datetime.date invariant. -/
theorem claim9 (inp : MfpInput)
    (hA : ∀ p, inp.mA = some p → ValidDate p.2 ∧ p.2.y ≤ 9999)
    (hB : ∀ p, inp.mB = some p → ValidDate p.2 ∧ p.2.y ≤ 9999)
    (hC : ∀ d, inp.mC = some d → ValidDate d ∧ d.y ≤ 9999)
    (hD : ∀ d, d ∈ inp.mD → ValidDate d ∧ d.y ≤ 9999) :
    ∀ s, statement_month inp = Except.ok s →
      wellFormedYM s = true ∨ s = "[unknown]" := by
  intro s hs
  unfold statement_month at hs
  cases hmf : month_from_period inp with
  | error e => rw [hmf] at hs; exact absurd hs (by simp)
  | ok o =>
      cases o with
      | none =>
          rw [hmf] at hs
          injection hs with h1
          exact Or.inr h1.symm
      | some t =>
          rw [hmf] at hs
          injection hs with h1
          rw [← h1]
          exact Or.inl (mfp_label inp hA hB hC hD t hmf)

/-- **C9 counterexample.** On input with no period match anywhere (empty
text and filename), statement_month is "[unknown]": this sentinel differs
from the claimed "unknown" and is not a well-formed YYYY-MM string either,
refuting the claim as stated. -/
theorem claim9_counterexample :
    statement_month ⟨none, none, none, [], none, none⟩ = Except.ok "[unknown]" ∧
    wellFormedYM "[unknown]" = false ∧ "[unknown]" ≠ "unknown" := by
  refine ⟨rfl, by decide, by decide⟩

/-- Concrete instantiation: a statement-period match for June 2025 yields
the label "2025-06", and the amended theorem applies to it with the
validity hypotheses discharged. -/
theorem claim9_witness :
    statement_month ⟨some (⟨2025, 6, 1⟩, ⟨2025, 6, 30⟩), none, none, [],
        none, none⟩
      = Except.ok "2025-06" ∧
    (wellFormedYM "2025-06" = true ∨ "2025-06" = "[unknown]") :=
  ⟨rfl,
   claim9 ⟨some (⟨2025, 6, 1⟩, ⟨2025, 6, 30⟩), none, none, [], none, none⟩
     (by intro p hp; injection hp with h; rw [← h]; exact ⟨by decide, by decide⟩)
     (by intro p hp; exact Option.noConfusion hp)
     (by intro d hd; exact Option.noConfusion hd)
     (by intro d hd; exact absurd hd (List.not_mem_nil d))
     "2025-06" rfl⟩
